import Mathlib

/-!
# Resolver: manifest resolution with ops files and implicit variables

A shallow embedding of `pkg/kube/util/withops/resolver.go`.

* Part 1 models the Go values that `replaceVarRecursive` walks through
  `reflect`, and the walk itself.
* Part 2 models `resourceData`, `Manifest` and `ManifestDetailed` with their
  collaborators (client, interpolator, manifest model, DNS factory, secret
  naming) taken as parameters.

Go strings and byte slices are `String`. A Go panic is `none` in the
substitution engine and the site `panicked` in a run of the resolver.
-/

namespace Withops

/-! ## Part 1: the substitution engine -/

/-- How a struct field is declared: exported, unexported, or an embedded field
whose type name is unexported. `reflect.Value.Field` derives the read-only
flags of the field value from this. -/
inductive Visibility where
  | exported
  | unexported
  | embedded
  deriving DecidableEq, Repr

/-- Permission flags of a `reflect.Value` that is addressable: no read-only
flag, `flagEmbedRO` only, or `flagStickyRO` (with or without `flagEmbedRO`). -/
inductive Access where
  | settable
  | embedRO
  | stickyRO
  deriving DecidableEq, Repr

/-- Go `Value.CanSet` for an addressable value: no read-only flag is set. -/
def Access.CanSet : Access → Bool
  | .settable => true
  | _ => false

/-- Flags of `v.Field(i)`: the sticky flag of `v` is inherited, the embed flag
of `v` is cleared, and an unexported field adds its own flag. -/
def Access.Field : Access → Visibility → Access
  | .stickyRO, _ => .stickyRO
  | _, .exported => .settable
  | _, .unexported => .stickyRO
  | _, .embedded => .embedRO

/-- Go `flag.ro()`: any read-only flag becomes the sticky one. The flags of
`v.Index(i)` on a slice are these. -/
def Access.ro : Access → Access
  | .settable => .settable
  | _ => .stickyRO

/-- A Go value as `replaceVarRecursive` sees it, by `reflect.Kind`.
`struct` records whether the type has a value-receiver method `DeepCopy`;
a slice is its element sequence (nil and empty coincide, capacity is not
kept); a map is its entries in some listing order; `other` is any kind the
switch has no case for (booleans, numbers, arrays, channels, functions), coded
as a number with `0` for the zero value. -/
inductive Node where
  | nilPtr
  | ptr (elem : Node)
  | nilIface
  | iface (elem : Node)
  | struct (hasDeepCopy : Bool) (fields : List (Visibility × Node))
  | slice (elems : List Node)
  | map (entries : List (String × Node))
  | str (s : String)
  | other (code : Nat)

mutual
/-- The zero value of the type of a node, as `reflect.New(t).Elem()` holds it. -/
def zero : Node → Node
  | .nilPtr => .nilPtr
  | .ptr _ => .nilPtr
  | .nilIface => .nilIface
  | .iface _ => .nilIface
  | .struct dc fs => .struct dc (zeroFields fs)
  | .slice _ => .slice []
  | .map _ => .map []
  | .str _ => .str ""
  | .other _ => .other 0
/-- Zero values of the fields of a struct type. -/
def zeroFields : List (Visibility × Node) → List (Visibility × Node)
  | [] => []
  | (vis, n) :: fs => (vis, zero n) :: zeroFields fs
end

/-- Scanner behind `replaceAll`: `skip` counts the characters of a matched
occurrence that are still to be dropped. -/
def replaceGo (old new : List Char) : Nat → List Char → List Char
  | _, [] => []
  | k + 1, _ :: cs => replaceGo old new k cs
  | 0, c :: cs =>
    if old.isPrefixOf (c :: cs) then new ++ replaceGo old new (old.length - 1) cs
    else c :: replaceGo old new 0 cs

/-- Go `strings.Replace(s, old, new, -1)` for a non-empty `old`: every
occurrence found scanning left to right, each search resuming right after the
previous occurrence. -/
def replaceAll (s old new : String) : String :=
  ⟨replaceGo old.data new.data 0 s.data⟩

/-- The placeholder `fmt.Sprintf("((%s))", varName)`. -/
def token (varName : String) : String :=
  "((" ++ varName ++ "))"

/-- The fields of a struct value as `copy.Field(i)` reaches them; a value of
another kind has none, so that `Field` panics on it. -/
def Node.fieldList : Node → List (Visibility × Node)
  | .struct _ fs => fs
  | _ => []

/-- A struct value with its fields overwritten. -/
def Node.setFields : Node → List (Visibility × Node) → Node
  | .struct dc _, fs => .struct dc fs
  | n, _ => n

/-- The content of `copy` before the field loop of the struct case: the result
of `DeepCopy` (a value equal to the receiver `v`) when the type has the method,
else what `copy` held. -/
def baseline (dc : Bool) (fs : List (Visibility × Node)) (copy : Node) : Node :=
  if dc then .struct dc fs else copy

mutual
/-- Go `replaceVarRecursive(copy, v, varName, varValue)`: the value `copy`
holds afterwards, or `none` when reflection panics. `acc` carries the flags of
`copy`; the flags of `copy.Field(i)` are derived from the field declaration,
which `copy` and `v` share because they have the same type. A `DeepCopy`
method is taken to return a value equal to its receiver. -/
def replaceVarRecursive (varName varValue : String) : Access → Node → Node → Option Node
  | _, copy, .nilPtr => some copy
  | acc, _, .ptr e =>
    if acc.CanSet then
      (replaceVarRecursive varName varValue acc (zero e) e).map Node.ptr
    else none
  | _, copy, .nilIface => some copy
  | acc, _, .iface e =>
    match replaceVarRecursive varName varValue .settable (zero e) e with
    | none => none
    | some r => if acc.CanSet then some (.iface r) else none
  | acc, copy, .struct dc fs =>
    if dc && !acc.CanSet then none
    else
      (replaceFields varName varValue acc (baseline dc fs copy).fieldList fs).map
        (baseline dc fs copy).setFields
  | acc, _, .slice es =>
    if acc.CanSet then (replaceElems varName varValue acc.ro es).map Node.slice
    else none
  | acc, _, .map kvs =>
    if acc.CanSet then (replaceEntries varName varValue kvs).map Node.map
    else none
  | acc, copy, .str s =>
    if acc.CanSet then some (.str (replaceAll s (token varName) varValue))
    else some copy
  | acc, copy, .other c =>
    if acc.CanSet then some (.other c) else some copy
/-- The field loop of the struct case, over the fields of `copy` and of `v`. -/
def replaceFields (varName varValue : String) :
    Access → List (Visibility × Node) → List (Visibility × Node) →
    Option (List (Visibility × Node))
  | _, cfs, [] => some cfs
  | _, [], _ :: _ => none
  | acc, (cvis, c) :: cfs, (vis, n) :: fs =>
    match replaceVarRecursive varName varValue (acc.Field vis) c n with
    | none => none
    | some r => (replaceFields varName varValue acc cfs fs).map ((cvis, r) :: ·)
/-- The element loop of the slice case, over a fresh slice of zero values. -/
def replaceElems (varName varValue : String) : Access → List Node → Option (List Node)
  | _, [] => some []
  | acc, e :: es =>
    match replaceVarRecursive varName varValue acc (zero e) e with
    | none => none
    | some r => (replaceElems varName varValue acc es).map (r :: ·)
/-- The key loop of the map case: each value is rebuilt in a fresh settable
value and stored under the same key. -/
def replaceEntries (varName varValue : String) :
    List (String × Node) → Option (List (String × Node))
  | [] => some []
  | (k, n) :: kvs =>
    match replaceVarRecursive varName varValue .settable (zero n) n with
    | none => none
    | some r => (replaceEntries varName varValue kvs).map ((k, r) :: ·)
end

/-- Go `replaceVar(manifest, name, value)`: the walk starts from a fresh,
settable zero value of the type of `manifest`. -/
def replaceVar (manifest : Node) (name value : String) : Option Node :=
  replaceVarRecursive name value .settable (zero manifest) manifest

/-- One step down a value: through a pointer or interface, to a struct field,
a slice element, or a map entry (by position in the listing). -/
inductive Step where
  | elem
  | field (i : Nat)
  | index (i : Nat)
  | entry (i : Nat)
  deriving DecidableEq, Repr

/-- The sub-value at a path, with the flags that the matching `copy` value has
in `replaceVarRecursive` when the walk starts with flags `a`. -/
def slot : Access → Node → List Step → Option (Access × Node)
  | a, n, [] => some (a, n)
  | a, .ptr e, .elem :: p => slot a e p
  | _, .iface e, .elem :: p => slot .settable e p
  | a, .struct _ fs, .field i :: p =>
    match fs[i]? with
    | some (vis, n) => slot (a.Field vis) n p
    | none => none
  | a, .slice es, .index i :: p =>
    match es[i]? with
    | some n => slot a.ro n p
    | none => none
  | _, .map kvs, .entry i :: p =>
    match kvs[i]? with
    | some (_, n) => slot .settable n p
    | none => none
  | _, _, _ :: _ => none

/-- The sub-value at a path. -/
def Node.at (n : Node) (p : List Step) : Option Node :=
  (slot .settable n p).map Prod.snd

mutual
/-- The shape of a value: string contents are blanked, and so are scalars in
slots that cannot be set; everything else is kept (nil or not, struct
declarations, sequence lengths and order, map keys, settable scalars). -/
def shape : Access → Node → Node
  | _, .nilPtr => .nilPtr
  | a, .ptr e => .ptr (shape a e)
  | _, .nilIface => .nilIface
  | _, .iface e => .iface (shape .settable e)
  | a, .struct dc fs => .struct dc (shapeFields a fs)
  | a, .slice es => .slice (shapeElems a.ro es)
  | _, .map kvs => .map (shapeEntries kvs)
  | _, .str _ => .str ""
  | a, .other c => if a.CanSet then .other c else .other 0
/-- Shapes of the fields of a struct. -/
def shapeFields : Access → List (Visibility × Node) → List (Visibility × Node)
  | _, [] => []
  | a, (vis, n) :: fs => (vis, shape (a.Field vis) n) :: shapeFields a fs
/-- Shapes of the elements of a slice. -/
def shapeElems : Access → List Node → List Node
  | _, [] => []
  | a, e :: es => shape a e :: shapeElems a es
/-- Shapes of the values of a map, keys kept. -/
def shapeEntries : List (String × Node) → List (String × Node)
  | [] => []
  | (k, n) :: kvs => (k, shape .settable n) :: shapeEntries kvs
end

mutual
/-- Every record field anywhere in the value is exported. -/
def exportedOnly : Node → Bool
  | .nilPtr => true
  | .ptr e => exportedOnly e
  | .nilIface => true
  | .iface e => exportedOnly e
  | .struct _ fs => exportedFields fs
  | .slice es => exportedElems es
  | .map kvs => exportedEntries kvs
  | .str _ => true
  | .other _ => true
/-- Every field of the list is exported, and so are the fields below it. -/
def exportedFields : List (Visibility × Node) → Bool
  | [] => true
  | (vis, n) :: fs => decide (vis = .exported) && exportedOnly n && exportedFields fs
/-- Every record field below the elements is exported. -/
def exportedElems : List Node → Bool
  | [] => true
  | e :: es => exportedOnly e && exportedElems es
/-- Every record field below the map values is exported. -/
def exportedEntries : List (String × Node) → Bool
  | [] => true
  | (_, n) :: kvs => exportedOnly n && exportedEntries kvs
end

/-- A string occurs in another as a contiguous run of characters. -/
def Occurs (old s : String) : Prop :=
  old.data <:+: s.data

/-! ## Part 2: the resolver -/

/-- The reference kinds of `bdv1`: `ConfigMapReference`, `SecretReference`,
`URLReference`, and any other tag, which `resourceData` rejects. -/
inductive ReferenceType where
  | configMap
  | secret
  | url
  | unrecognized (tag : String)
  deriving DecidableEq, Repr

/-- A manifest or ops reference of the deployment spec: its `Type` and `Name`. -/
structure ResourceReference where
  RefType : ReferenceType
  Name : String
  deriving DecidableEq, Repr

/-- The part of `bdv1.BOSHDeployment` the resolver reads: the object name
(`GetName()` and `.Name`), `Spec.Manifest` and `Spec.Ops`. -/
structure BOSHDeployment where
  Name : String
  Manifest : ResourceReference
  Ops : List ResourceReference
  deriving DecidableEq, Repr

/-- The cluster and the network as `resourceData` reads them: `client.Get` of
a config map or secret gives its data or an error text; `http.Get` gives an
error text or a body whose `ioutil.ReadAll` gives an error text or the text. -/
structure Client where
  getConfigMap : String → String → Except String (List (String × String))
  getSecret : String → String → Except String (List (String × String))
  httpGet : String → Except String (Except String String)

/-- The `Interpolator` capability: `fresh` is the state of the instance that
`newInterpolatorFunc()` returns, `BuildOps` the state after a successful call. -/
structure Interpolator (σ : Type) where
  fresh : σ
  BuildOps : σ → String → Except String σ
  Interpolate : σ → String → Except String String

/-- Everything the resolver calls that is not in `resolver.go`. The manifest
model works on the manifest pointer as a `Node`; a `DomainNameService` is its
one method `HeadlessServiceName`; `DeploymentSecretName` is
`names.DeploymentSecretName(names.DeploymentSecretTypeVariable, ·, ·)`;
`goSyntax` is the `%#v` rendering of a string; the last three are the `bdv1`
constants. The context and the loggers are not modelled. -/
structure Collaborators (σ : Type) where
  client : Client
  interpolator : Interpolator σ
  LoadYAML : String → Except String Node
  ImplicitVariables : Node → Except String (List String)
  ApplyAddons : Node → Except String Node
  newDNSFunc : String → Node → Except String (String → String)
  ApplyUpdateBlock : Node → (String → String) → Node
  DeploymentSecretName : String → String → String
  goSyntax : String → String
  ManifestSpecName : String
  OpsSpecName : String
  ImplicitVariableKeyName : String

/-- The message of `errors.Wrapf(cause, msg)`. -/
def wrapf (cause msg : String) : String :=
  msg ++ ": " ++ cause

/-- Go `resourceData`: the text behind a reference, or the error message. -/
def resourceData (cl : Client) (ns : String) (resType : ReferenceType) (name key : String) :
    Except String String :=
  match resType with
  | .configMap =>
    match cl.getConfigMap ns name with
    | .error e =>
      .error (wrapf e ("failed to retrieve " ++ key ++ " from configmap '" ++ ns ++ "/" ++
        name ++ "' via client.Get"))
    | .ok data =>
      match data.lookup key with
      | none => .error ("configMap '" ++ ns ++ "/" ++ name ++ "' doesn't contain key " ++ key)
      | some d => .ok d
  | .secret =>
    match cl.getSecret ns name with
    | .error e =>
      .error (wrapf e ("failed to retrieve " ++ key ++ " from secret '" ++ ns ++ "/" ++
        name ++ "' via client.Get"))
    | .ok data =>
      match data.lookup key with
      | none => .error ("secret '" ++ ns ++ "/" ++ name ++ "' doesn't contain key " ++ key)
      | some d => .ok d
  | .url =>
    match cl.httpGet name with
    | .error e =>
      .error (wrapf e ("failed to resolve " ++ key ++ " from url '" ++ name ++ "' via http.Get"))
    | .ok (.error e) =>
      .error (wrapf e ("failed to read " ++ key ++ " response body '" ++ name ++ "' via ioutil"))
    | .ok (.ok body) => .ok body
  | .unrecognized _ => .error ("unrecognized " ++ key ++ " ref type " ++ name)

/-- On whose behalf a fetch is issued: the base manifest, the ops reference
number `i`, or the implicit variable number `i` (counting from 0). -/
inductive Purpose where
  | manifest
  | ops (i : Nat)
  | implicitVar (i : Nat)
  deriving DecidableEq, Repr

/-- A call the resolver makes: `resourceData`, `BuildOps` or `Interpolate` on
the interpolator instance number `inst` (in order of creation), `LoadYAML`. -/
inductive Call where
  | fetch (purpose : Purpose) (resType : ReferenceType) (ns name key : String)
  | BuildOps (inst : Nat) (data : String)
  | Interpolate (inst : Nat) (data : String)
  | LoadYAML (data : String)
  deriving DecidableEq, Repr

/-- The statement at which a run ends: one of the `return`s, named by the step
that failed (with the loop index where there is one), the final `return`, or a
panic. -/
inductive Site where
  | manifestFetch
  | opsFetch (i : Nat)
  | buildOps (i : Nat)
  | interpolate
  | loadYAML
  | implicitVariables
  | separator (i : Nat)
  | secretFetch (i : Nat)
  | applyAddons
  | newDNS
  | done
  | panicked
  deriving DecidableEq, Repr

/-- One run of `Manifest` or `ManifestDetailed`: the calls made, where it
ended, the value of `vars` (empty before it is assigned), and the three
results (`secrets = none` is the nil slice, `err = none` the nil error). -/
structure Run where
  calls : List Call
  site : Site
  vars : List String
  manifest : Option Node
  secrets : Option (List String)
  err : Option String

/-- A run ending in `return nil, secrets, err`. -/
def failed (calls : List Call) (site : Site) (vars : List String)
    (secrets : Option (List String)) (err : String) : Run :=
  ⟨calls, site, vars, none, secrets, some err⟩

/-- A run ending in a panic: nothing is returned. -/
def panicked (calls : List Call) (vars : List String) : Run :=
  ⟨calls, .panicked, vars, none, none, none⟩

/-- The pieces of a name between its `/` characters. -/
def splitSlash : List Char → List (List Char)
  | [] => [[]]
  | c :: cs =>
    if c = '/' then [] :: splitSlash cs
    else
      match splitSlash cs with
      | p :: ps => (c :: p) :: ps
      | [] => [[c]]

/-- Go `strings.Split(v, "/")`. -/
def Split (v : String) : List String :=
  (splitSlash v.data).map String.mk

/-- Lines 107-120 and 198-211: the secret name and key of an implicit
variable, or the number that the separator error reports. -/
def variableSecret {σ : Type} (c : Collaborators σ) (deploymentName v : String) :
    Except Nat (String × String) :=
  if '/' ∈ v.data then
    if (Split v).length ≠ 2 then .error (Split v).length
    else .ok (c.DeploymentSecretName deploymentName ((Split v).getD 0 ""), (Split v).getD 1 "")
  else .ok (c.DeploymentSecretName deploymentName v, c.ImplicitVariableKeyName)

/-- The text of the separator error. -/
def separatorError (n : Nat) : String :=
  "expected one / separator for implicit variable/key name, have " ++ toString n

/-- The loop over `vars` (lines 106-129 and 197-220), from index `i` on:
the manifest, `varSecrets` and calls after the last variable, or the run that
an early exit ends. -/
def variablesLoop {σ : Type} (c : Collaborators σ) (bdpl : BOSHDeployment) (ns : String)
    (vars : List String) :
    List String → Nat → Node → List String → List Call →
    Except Run (Node × List String × List Call)
  | [], _, manifest, varSecrets, calls => .ok (manifest, varSecrets, calls)
  | v :: rest, i, manifest, varSecrets, calls =>
    match variableSecret c bdpl.Name v with
    | .error n => .error (failed calls (.separator i) vars (some []) (separatorError n))
    | .ok (varSecretName, varKeyName) =>
      match resourceData c.client ns .secret varSecretName varKeyName with
      | .error e =>
        .error (failed (calls ++ [.fetch (.implicitVar i) .secret ns varSecretName varKeyName])
          (.secretFetch i) vars (some varSecrets)
          (wrapf e ("failed to load secret for variable '" ++ v ++ "'")))
      | .ok varData =>
        match replaceVar manifest v varData with
        | none =>
          .error (panicked (calls ++ [.fetch (.implicitVar i) .secret ns varSecretName varKeyName])
            vars)
        | some manifest' =>
          variablesLoop c bdpl ns vars rest (i + 1) manifest' (varSecrets.set i varSecretName)
            (calls ++ [.fetch (.implicitVar i) .secret ns varSecretName varKeyName])

/-- Lines 93-145 of `Manifest`, which are lines 184-236 of `ManifestDetailed`
up to the name of the logger: parse `bytes`, resolve the implicit variables,
apply the addons and the update block. `m` is the base manifest text, quoted
in one error message. Dereferencing the manifest for `newDNSFunc` panics when
it is not a set pointer. -/
def resolve {σ : Type} (c : Collaborators σ) (bdpl : BOSHDeployment) (ns : String)
    (m bytes : String) (calls : List Call) : Run :=
  match c.LoadYAML bytes with
  | .error e =>
    failed (calls ++ [.LoadYAML bytes]) .loadYAML [] (some [])
      (wrapf e ("Loading yaml failed in interpolation task after applying ops " ++ c.goSyntax m))
  | .ok manifest =>
    match c.ImplicitVariables manifest with
    | .error e =>
      failed (calls ++ [.LoadYAML bytes]) .implicitVariables [] (some [])
        (wrapf e "failed to list implicit variables")
    | .ok vars =>
      match variablesLoop c bdpl ns vars vars 0 manifest (List.replicate vars.length "")
          (calls ++ [.LoadYAML bytes]) with
      | .error run => run
      | .ok (manifest, varSecrets, calls') =>
        match c.ApplyAddons manifest with
        | .error e =>
          failed calls' .applyAddons vars (some varSecrets) (wrapf e "failed to apply addons")
        | .ok manifest =>
          match manifest with
          | .ptr target =>
            match c.newDNSFunc bdpl.Name target with
            | .error e => failed calls' .newDNS vars none e
            | .ok dns =>
              ⟨calls', .done, vars, some (c.ApplyUpdateBlock manifest dns), some varSecrets, none⟩
          | _ => panicked calls' vars

/-- The ops loop of `Manifest` (lines 74-83): every ops text is fetched and
handed to `BuildOps` of the one interpolator, instance 0. -/
def buildOpsLoop {σ : Type} (c : Collaborators σ) (bdpl : BOSHDeployment) (ns : String) :
    List ResourceReference → Nat → σ → List Call → Except Run (σ × List Call)
  | [], _, interp, calls => .ok (interp, calls)
  | op :: ops, i, interp, calls =>
    match resourceData c.client ns op.RefType op.Name c.OpsSpecName with
    | .error e =>
      .error (failed (calls ++ [.fetch (.ops i) op.RefType ns op.Name c.OpsSpecName])
        (.opsFetch i) [] (some [])
        (wrapf e ("Interpolation failed for bosh deployment " ++ bdpl.Name)))
    | .ok opsData =>
      match c.interpolator.BuildOps interp opsData with
      | .error e =>
        .error (failed
          (calls ++ [.fetch (.ops i) op.RefType ns op.Name c.OpsSpecName, .BuildOps 0 opsData])
          (.buildOps i) [] (some [])
          (wrapf e ("Interpolation failed for bosh deployment " ++ bdpl.Name)))
      | .ok interp' =>
        buildOpsLoop c bdpl ns ops (i + 1) interp'
          (calls ++ [.fetch (.ops i) op.RefType ns op.Name c.OpsSpecName, .BuildOps 0 opsData])

/-- Go `Resolver.Manifest`. -/
def Manifest {σ : Type} (c : Collaborators σ) (bdpl : BOSHDeployment) (ns : String) : Run :=
  match resourceData c.client ns bdpl.Manifest.RefType bdpl.Manifest.Name c.ManifestSpecName with
  | .error e =>
    failed [.fetch .manifest bdpl.Manifest.RefType ns bdpl.Manifest.Name c.ManifestSpecName]
      .manifestFetch [] (some [])
      (wrapf e ("Interpolation failed for bosh deployment " ++ bdpl.Name))
  | .ok m =>
    match buildOpsLoop c bdpl ns bdpl.Ops 0 c.interpolator.fresh
        [.fetch .manifest bdpl.Manifest.RefType ns bdpl.Manifest.Name c.ManifestSpecName] with
    | .error run => run
    | .ok (interp, calls) =>
      if bdpl.Ops.length ≠ 0 then
        match c.interpolator.Interpolate interp m with
        | .error e =>
          failed (calls ++ [.Interpolate 0 m]) .interpolate [] (some [])
            (wrapf e ("Failed to interpolate " ++ c.goSyntax m ++ " in interpolation task"))
        | .ok bytes => resolve c bdpl ns m bytes (calls ++ [.Interpolate 0 m])
      else resolve c bdpl ns m m calls

/-- The ops loop of `ManifestDetailed` (lines 166-182): for the ops reference
number `i` a fresh interpolator, instance `i`, takes the one ops text and
interpolates the bytes so far. -/
def interpolateEach {σ : Type} (c : Collaborators σ) (bdpl : BOSHDeployment) (ns : String) :
    List ResourceReference → Nat → String → List Call → Except Run (String × List Call)
  | [], _, bytes, calls => .ok (bytes, calls)
  | op :: ops, i, bytes, calls =>
    match resourceData c.client ns op.RefType op.Name c.OpsSpecName with
    | .error e =>
      .error (failed (calls ++ [.fetch (.ops i) op.RefType ns op.Name c.OpsSpecName])
        (.opsFetch i) [] (some [])
        (wrapf e ("Failed to get resource data for interpolation of bosh deployment '" ++
          bdpl.Name ++ "' and ops '" ++ op.Name ++ "'")))
    | .ok opsData =>
      match c.interpolator.BuildOps c.interpolator.fresh opsData with
      | .error e =>
        .error (failed
          (calls ++ [.fetch (.ops i) op.RefType ns op.Name c.OpsSpecName, .BuildOps i opsData])
          (.buildOps i) [] (some [])
          (wrapf e ("Interpolation failed for bosh deployment '" ++ bdpl.Name ++
            "' and ops '" ++ op.Name ++ "'")))
      | .ok interp =>
        match c.interpolator.Interpolate interp bytes with
        | .error e =>
          .error (failed
            (calls ++ [.fetch (.ops i) op.RefType ns op.Name c.OpsSpecName,
              .BuildOps i opsData, .Interpolate i bytes])
            .interpolate [] (some [])
            (wrapf e ("Failed to interpolate ops '" ++ op.Name ++ "' for manifest '" ++
              bdpl.Name ++ "'")))
        | .ok bytes' =>
          interpolateEach c bdpl ns ops (i + 1) bytes'
            (calls ++ [.fetch (.ops i) op.RefType ns op.Name c.OpsSpecName,
              .BuildOps i opsData, .Interpolate i bytes])

/-- Go `Resolver.ManifestDetailed`. -/
def ManifestDetailed {σ : Type} (c : Collaborators σ) (bdpl : BOSHDeployment) (ns : String) :
    Run :=
  match resourceData c.client ns bdpl.Manifest.RefType bdpl.Manifest.Name c.ManifestSpecName with
  | .error e =>
    failed [.fetch .manifest bdpl.Manifest.RefType ns bdpl.Manifest.Name c.ManifestSpecName]
      .manifestFetch [] (some [])
      (wrapf e ("Interpolation failed for bosh deployment " ++ bdpl.Name))
  | .ok m =>
    match interpolateEach c bdpl ns bdpl.Ops 0 m
        [.fetch .manifest bdpl.Manifest.RefType ns bdpl.Manifest.Name c.ManifestSpecName] with
    | .error run => run
    | .ok (bytes, calls) => resolve c bdpl ns m bytes calls

/-- The secret name that `variableSecret` derives for a variable (empty for a
malformed name, which has none). -/
def secretNameOf {σ : Type} (c : Collaborators σ) (deploymentName v : String) : String :=
  match variableSecret c deploymentName v with
  | .ok p => p.1
  | .error _ => ""

/-- A call is made on an interpolator. -/
def Call.onInterpolator : Call → Bool
  | .BuildOps _ _ => true
  | .Interpolate _ _ => true
  | _ => false

/-- A call hands bytes to the parser. -/
def Call.isLoadYAML : Call → Bool
  | .LoadYAML _ => true
  | _ => false

/-- A call is the secret fetch of an implicit variable numbered from `lo` up
to, not including, `hi`. -/
def Call.isVariableFetch (lo hi : Nat) : Call → Prop
  | .fetch (.implicitVar k) _ _ _ _ => lo ≤ k ∧ k < hi
  | _ => False

/-- The state of one interpolator after `BuildOps` on each text in turn. -/
def accumulate {σ : Type} (I : Interpolator σ) : σ → List String → Except String σ
  | s, [] => .ok s
  | s, t :: ts =>
    match I.BuildOps s t with
    | .error e => .error e
    | .ok s' => accumulate I s' ts

/-- What holds of a run that leaves the variable loop early, when the loop
started at index `lo` with the calls `calls` made before: the index `j` it
stopped at, the calls added, and the results by exit. -/
def LoopExit {σ : Type} (c : Collaborators σ) (bdpl : BOSHDeployment) (ns : String)
    (vars : List String) (lo : Nat) (calls : List Call) (run : Run) : Prop :=
  run.manifest = none ∧ run.vars = vars ∧
  ∃ j extra, lo ≤ j ∧ j < vars.length ∧ run.calls = calls ++ extra ∧
    (∀ k v, lo ≤ k → k < j → vars[k]? = some v →
      ∃ p, variableSecret c bdpl.Name v = .ok p) ∧
    ((run.site = .separator j ∧ (∀ x ∈ extra, x.isVariableFetch lo j) ∧
        ∃ v n, vars[j]? = some v ∧ variableSecret c bdpl.Name v = .error n ∧
          run.secrets = some [] ∧ run.err = some (separatorError n)) ∨
     (run.site = .secretFetch j ∧ (∀ x ∈ extra, x.isVariableFetch lo (j + 1)) ∧
        ∃ v bar foo e, vars[j]? = some v ∧
          variableSecret c bdpl.Name v = .ok (bar, foo) ∧
          resourceData c.client ns .secret bar foo = .error e ∧
          run.secrets = some ((vars.take j).map (secretNameOf c bdpl.Name) ++
            List.replicate (vars.length - j) "") ∧
          run.err = some (wrapf e ("failed to load secret for variable '" ++ v ++ "'"))) ∨
     (run.site = .panicked ∧ (∀ x ∈ extra, x.isVariableFetch lo (j + 1)) ∧
        (∃ v p, vars[j]? = some v ∧ variableSecret c bdpl.Name v = .ok p) ∧
        run.secrets = none ∧ run.err = none))

/-- A call is the secret fetch of some implicit variable. -/
def Call.forVariable : Call → Bool
  | .fetch (.implicitVar _) _ _ _ _ => true
  | _ => false

/-- The run ended before `vars` was assigned. -/
def Site.isEarly : Site → Bool
  | .manifestFetch => true
  | .opsFetch _ => true
  | .buildOps _ => true
  | .interpolate => true
  | .loadYAML => true
  | .implicitVariables => true
  | _ => false

/-- What holds of a run that made the calls `calls` before the variable loop,
by where it ended: before the variables were listed, inside the variable loop,
or after it. -/
def RunFrom {σ : Type} (c : Collaborators σ) (bdpl : BOSHDeployment) (ns : String)
    (calls : List Call) (run : Run) : Prop :=
  (run.calls = calls ∧ run.vars = [] ∧ run.manifest = none ∧ run.secrets = some [] ∧
      (∃ e, run.err = some e) ∧ run.site.isEarly = true) ∨
  LoopExit c bdpl ns run.vars 0 calls run ∨
  ((∀ v ∈ run.vars, ∃ p, variableSecret c bdpl.Name v = .ok p) ∧
    (∃ extra, run.calls = calls ++ extra ∧
      ∀ x ∈ extra, x.isVariableFetch 0 run.vars.length) ∧
    ((run.site = .applyAddons ∧ run.manifest = none ∧
        run.secrets = some (run.vars.map (secretNameOf c bdpl.Name)) ∧
        ∃ e, run.err = some e) ∨
     (run.site = .newDNS ∧ run.manifest = none ∧ run.secrets = none ∧
        ∃ e, run.err = some e) ∨
     (run.site = .done ∧ (∃ m, run.manifest = some m) ∧
        run.secrets = some (run.vars.map (secretNameOf c bdpl.Name)) ∧ run.err = none) ∨
     (run.site = .panicked ∧ run.manifest = none ∧ run.secrets = none ∧
        run.err = none)))

/-- What holds of every run: it has the shape `RunFrom` for calls that hold no
secret fetch of a variable. -/
def RunShape {σ : Type} (c : Collaborators σ) (bdpl : BOSHDeployment) (ns : String)
    (run : Run) : Prop :=
  ∃ calls, (∀ x ∈ calls, x.forVariable = false) ∧ RunFrom c bdpl ns calls run

/-- A run that ended before the variables were listed: no manifest, the empty
list, an error, and no secret fetch of a variable among its calls. -/
def EarlyFail (run : Run) : Prop :=
  ∃ calls site e, run = failed calls site [] (some []) e ∧
    (∀ x ∈ calls, x.forVariable = false) ∧ site.isEarly = true

/-- A run without its record of calls: where it ended and what it returned. -/
def Run.forget (r : Run) : Run :=
  { r with calls := [] }

/-- The outcome of the variable loop without the record of calls. -/
def stripLoop : Except Run (Node × List String × List Call) → Except Run (Node × List String)
  | .ok (m, vs, _) => .ok (m, vs)
  | .error r => .error r.forget

/-- The two strategies of the resolver. -/
inductive Strategy where
  | combined
  | detailed
  deriving DecidableEq, Repr

/-- A run of the strategy: `Manifest` or `ManifestDetailed`. -/
def execute {σ : Type} (s : Strategy) (c : Collaborators σ) (bdpl : BOSHDeployment)
    (ns : String) : Run :=
  match s with
  | .combined => Manifest c bdpl ns
  | .detailed => ManifestDetailed c bdpl ns

/-- The bytes after a fresh interpolator has taken each ops text in turn and
interpolated the bytes so far. -/
def interpolateDetailed {σ : Type} (I : Interpolator σ) :
    String → List String → Except String String
  | b, [] => .ok b
  | b, t :: ts =>
    match I.BuildOps I.fresh t with
    | .error e => .error e
    | .ok s =>
      match I.Interpolate s b with
      | .error e => .error e
      | .ok b' => interpolateDetailed I b' ts

/-- The collaborators let the strategy reach the parser: the base manifest
text `m` and every ops text are fetched, and the interpolator calls of the
strategy succeed and give `bytes` (the base text itself when the combined
strategy has no ops). -/
def Patched {σ : Type} (s : Strategy) (c : Collaborators σ) (bdpl : BOSHDeployment)
    (ns m bytes : String) : Prop :=
  resourceData c.client ns bdpl.Manifest.RefType bdpl.Manifest.Name c.ManifestSpecName = .ok m ∧
  ∃ texts : List String,
    List.Forall₂ (fun op t => resourceData c.client ns op.RefType op.Name c.OpsSpecName = .ok t)
      bdpl.Ops texts ∧
    match s with
    | .combined =>
      (texts = [] ∧ bytes = m) ∨
      (texts ≠ [] ∧ ∃ st, accumulate c.interpolator c.interpolator.fresh texts = .ok st ∧
        c.interpolator.Interpolate st m = .ok bytes)
    | .detailed => interpolateDetailed c.interpolator m texts = .ok bytes

/-- The manifest after the listed variables are resolved in turn: each name is
well formed, its secret value is fetched, and `replaceVar` puts the value in;
`none` when one of these steps does not go through. -/
def substituteAll {σ : Type} (c : Collaborators σ) (deploymentName ns : String) :
    Node → List String → Option Node
  | manifest, [] => some manifest
  | manifest, v :: vs =>
    match variableSecret c deploymentName v with
    | .error _ => none
    | .ok (varSecretName, varKeyName) =>
      match resourceData c.client ns .secret varSecretName varKeyName with
      | .error _ => none
      | .ok varData =>
        match replaceVar manifest v varData with
        | none => none
        | some manifest' => substituteAll c deploymentName ns manifest' vs

/-- The list holds the derived secret names of the variables, index by index:
for a variable without `/` the deployment secret name of the variable, for
`base/subKey` the deployment secret name of `base`. -/
def DerivedNames {σ : Type} (c : Collaborators σ) (deploymentName : String)
    (vars names : List String) : Prop :=
  names.length = vars.length ∧
  (∀ (i : Nat) (v : String), vars[i]? = some v → '/' ∉ v.data →
    names[i]? = some (c.DeploymentSecretName deploymentName v)) ∧
  (∀ (i : Nat) (base sub : String), vars[i]? = some (base ++ "/" ++ sub) →
    '/' ∉ base.data → '/' ∉ sub.data →
    names[i]? = some (c.DeploymentSecretName deploymentName base)) ∧
  (vars = [] → names = [])

/-! ## Sample collaborators -/

/-- A cluster in which every config map holds a manifest text and an ops text,
and every secret holds the one key `value`. -/
def sampleClient : Client where
  getConfigMap := fun _ name =>
    .ok [("manifest", "name: ((instance_name))"), ("ops", "patch " ++ name ++ ";")]
  getSecret := fun _ _ => .ok [("value", "worker-1")]
  httpGet := fun _ => .error "no route to host"

/-- An interpolator that keeps the ops texts in order, refuses an ops text
that holds `reject` (if any), and appends the kept texts to the manifest,
followed by `stamp`. With an empty `stamp`, interpolating with all texts at
once is interpolating with them one at a time. -/
def sampleInterpolator (reject : Option String) (stamp : String) : Interpolator (List String) where
  fresh := []
  BuildOps := fun s t => if reject = some t then .error "cannot build ops" else .ok (s ++ [t])
  Interpolate := fun s b => .ok (b ++ String.join s ++ stamp)

/-- Collaborators over the sample cluster: the parsed manifest is a pointer to
a record holding the bytes, its implicit variables are `vars`, addons and DNS
fail on request, and a secret is named `deployment-var-name`. -/
def sample (I : Interpolator (List String)) (vars : List String) (addonsFail dnsFail : Bool) :
    Collaborators (List String) where
  client := sampleClient
  interpolator := I
  LoadYAML := fun bytes => .ok (.ptr (.struct false [(.exported, .str bytes)]))
  ImplicitVariables := fun _ => .ok vars
  ApplyAddons := fun m => if addonsFail then .error "addon failed" else .ok m
  newDNSFunc := fun _ _ => if dnsFail then .error "no dns" else .ok id
  ApplyUpdateBlock := fun m _ => m
  DeploymentSecretName := fun dep name =>
    dep ++ "-var-" ++ ⟨name.data.map fun ch => if ch = '_' then '-' else ch⟩
  goSyntax := fun t => t
  ManifestSpecName := "manifest"
  OpsSpecName := "ops"
  ImplicitVariableKeyName := "value"

/-- A deployment `dep` with a config-map manifest and the given ops references. -/
def sampleDeployment (ops : List String) : BOSHDeployment where
  Name := "dep"
  Manifest := ⟨.configMap, "base"⟩
  Ops := ops.map fun n => ⟨.configMap, n⟩

end Withops

namespace Withops

/-! ## Facts about the substitution engine -/

theorem replaceGo_skip (old new : List Char) :
    ∀ (k : Nat) (l : List Char), replaceGo old new k l = replaceGo old new 0 (l.drop k)
  | 0, l => by simp
  | k + 1, [] => by simp [replaceGo]
  | k + 1, _ :: cs => by
    simp only [replaceGo, List.drop_succ_cons]
    exact replaceGo_skip old new k cs

theorem replaceGo_absent (old new : List Char) :
    ∀ l : List Char, ¬ old <:+: l → replaceGo old new 0 l = l
  | [], _ => by simp [replaceGo]
  | c :: cs, h => by
    have hp : old.isPrefixOf (c :: cs) = false := by
      by_contra hc
      simp only [Bool.not_eq_false] at hc
      exact h (List.isPrefixOf_iff_prefix.mp hc).isInfix
    have ht : ¬ old <:+: cs := fun hi => h (hi.trans (List.suffix_cons c cs).isInfix)
    simp [replaceGo, hp, replaceGo_absent old new cs ht]

theorem replaceFields_getElem (x v : String) (acc : Access) :
    ∀ (fs cfs rs : List (Visibility × Node)) (i : Nat) (vis : Visibility) (n : Node),
      replaceFields x v acc cfs fs = some rs → fs[i]? = some (vis, n) →
      ∃ cvis c r, rs[i]? = some (cvis, r) ∧
        replaceVarRecursive x v (acc.Field vis) c n = some r
  | [], _, _, i, _, _, _, hi => by simp at hi
  | _ :: _, [], _, _, _, _, h, _ => by simp [replaceFields] at h
  | (vis0, n0) :: fs, (cvis, c) :: cfs, rs, i, vis, n, h, hi => by
    simp only [replaceFields] at h
    cases hr : replaceVarRecursive x v (acc.Field vis0) c n0 with
    | none => simp [hr] at h
    | some r0 =>
      simp only [hr, Option.map_eq_some'] at h
      obtain ⟨rs', hrs', rfl⟩ := h
      cases i with
      | zero =>
        simp only [List.getElem?_cons_zero, Option.some.injEq, Prod.mk.injEq] at hi
        obtain ⟨rfl, rfl⟩ := hi
        exact ⟨cvis, c, r0, by simp, hr⟩
      | succ j =>
        simp only [List.getElem?_cons_succ] at hi
        obtain ⟨cv, c', r, h1, h2⟩ := replaceFields_getElem x v acc fs cfs rs' j vis n hrs' hi
        exact ⟨cv, c', r, by simpa using h1, h2⟩

theorem replaceElems_getElem (x v : String) (acc : Access) :
    ∀ (es rs : List Node) (i : Nat) (n : Node),
      replaceElems x v acc es = some rs → es[i]? = some n →
      ∃ r, rs[i]? = some r ∧ replaceVarRecursive x v acc (zero n) n = some r
  | [], _, i, _, _, hi => by simp at hi
  | e :: es, rs, i, n, h, hi => by
    simp only [replaceElems] at h
    cases hr : replaceVarRecursive x v acc (zero e) e with
    | none => simp [hr] at h
    | some r0 =>
      simp only [hr, Option.map_eq_some'] at h
      obtain ⟨rs', hrs', rfl⟩ := h
      cases i with
      | zero =>
        simp only [List.getElem?_cons_zero, Option.some.injEq] at hi
        subst hi
        exact ⟨r0, by simp, hr⟩
      | succ j =>
        simp only [List.getElem?_cons_succ] at hi
        obtain ⟨r, h1, h2⟩ := replaceElems_getElem x v acc es rs' j n hrs' hi
        exact ⟨r, by simpa using h1, h2⟩

theorem replaceEntries_getElem (x v : String) :
    ∀ (kvs rs : List (String × Node)) (i : Nat) (k : String) (n : Node),
      replaceEntries x v kvs = some rs → kvs[i]? = some (k, n) →
      ∃ r, rs[i]? = some (k, r) ∧ replaceVarRecursive x v .settable (zero n) n = some r
  | [], _, i, _, _, _, hi => by simp at hi
  | (k0, e) :: kvs, rs, i, k, n, h, hi => by
    simp only [replaceEntries] at h
    cases hr : replaceVarRecursive x v .settable (zero e) e with
    | none => simp [hr] at h
    | some r0 =>
      simp only [hr, Option.map_eq_some'] at h
      obtain ⟨rs', hrs', rfl⟩ := h
      cases i with
      | zero =>
        simp only [List.getElem?_cons_zero, Option.some.injEq, Prod.mk.injEq] at hi
        obtain ⟨rfl, rfl⟩ := hi
        exact ⟨r0, by simp, hr⟩
      | succ j =>
        simp only [List.getElem?_cons_succ] at hi
        obtain ⟨r, h1, h2⟩ := replaceEntries_getElem x v kvs rs' j k n hrs' hi
        exact ⟨r, by simpa using h1, h2⟩

/-- Where the source has a string in a settable slot, the rebuilt value has
the replaced string at the same path (whatever flags the lookup in the result
starts from). -/
theorem replaceVarRecursive_string_slot (x v : String) :
    ∀ (p : List Step) (acc acc' : Access) (copy n r : Node) (a : Access) (s : String),
      replaceVarRecursive x v acc copy n = some r →
      slot acc n p = some (a, .str s) → a.CanSet = true →
      ∃ a', slot acc' r p = some (a', .str (replaceAll s (token x) v))
  | [], acc, acc', copy, n, r, a, s, h, hs, ha => by
    simp only [slot, Option.some.injEq, Prod.mk.injEq] at hs
    obtain ⟨rfl, rfl⟩ := hs
    simp only [replaceVarRecursive, ha, if_true, Option.some.injEq] at h
    subst h
    exact ⟨acc', by simp [slot]⟩
  | st :: p, acc, acc', copy, n, r, a, s, h, hs, ha => by
    cases n with
    | nilPtr => simp [slot] at hs
    | nilIface => simp [slot] at hs
    | str _ => simp [slot] at hs
    | other _ => simp [slot] at hs
    | ptr e =>
      cases st <;> simp only [slot] at hs <;> try exact absurd hs (by simp)
      simp only [replaceVarRecursive] at h
      split at h
      · simp only [Option.map_eq_some'] at h
        obtain ⟨r', hr', rfl⟩ := h
        obtain ⟨a', h'⟩ := replaceVarRecursive_string_slot x v p acc acc' _ e r' a s hr' hs ha
        exact ⟨a', by simpa [slot] using h'⟩
      · simp at h
    | iface e =>
      cases st <;> simp only [slot] at hs <;> try exact absurd hs (by simp)
      simp only [replaceVarRecursive] at h
      cases hr : replaceVarRecursive x v .settable (zero e) e with
      | none => simp [hr] at h
      | some r' =>
        simp only [hr] at h
        split at h
        · simp only [Option.some.injEq] at h
          subst h
          obtain ⟨a', h'⟩ :=
            replaceVarRecursive_string_slot x v p .settable .settable _ e r' a s hr hs ha
          exact ⟨a', by simpa [slot] using h'⟩
        · simp at h
    | struct dc fs =>
      cases st <;> simp only [slot] at hs <;> try exact absurd hs (by simp)
      rename_i i
      cases hfi : fs[i]? with
      | none => simp [hfi] at hs
      | some f =>
        obtain ⟨vis, n'⟩ := f
        simp only [hfi] at hs
        simp only [replaceVarRecursive] at h
        split at h
        · simp at h
        · simp only [Option.map_eq_some'] at h
          obtain ⟨rs, hrs, rfl⟩ := h
          obtain ⟨cvis, c, r', hri, hr'⟩ :=
            replaceFields_getElem x v acc _ _ rs i vis n' hrs hfi
          have hb : ∃ dc', (baseline dc fs copy).setFields rs = .struct dc' rs := by
            cases hbase : baseline dc fs copy with
            | struct dc' cfs => exact ⟨dc', rfl⟩
            | _ =>
              simp only [hbase, Node.fieldList] at hrs
              cases fs with
              | nil => simp at hfi
              | cons f fs' => simp [replaceFields] at hrs
          obtain ⟨dc', hdc'⟩ := hb
          obtain ⟨a', h'⟩ :=
            replaceVarRecursive_string_slot x v p _ (acc'.Field cvis) c n' r' a s hr' hs ha
          exact ⟨a', by simpa [hdc', slot, hri] using h'⟩
    | slice es =>
      cases st <;> simp only [slot] at hs <;> try exact absurd hs (by simp)
      rename_i i
      cases hei : es[i]? with
      | none => simp [hei] at hs
      | some n' =>
        simp only [hei] at hs
        simp only [replaceVarRecursive] at h
        split at h
        · simp only [Option.map_eq_some'] at h
          obtain ⟨rs, hrs, rfl⟩ := h
          obtain ⟨r', hri, hr'⟩ := replaceElems_getElem x v _ es rs i n' hrs hei
          obtain ⟨a', h'⟩ :=
            replaceVarRecursive_string_slot x v p _ acc'.ro _ n' r' a s hr' hs ha
          exact ⟨a', by simpa [slot, hri] using h'⟩
        · simp at h
    | map kvs =>
      cases st <;> simp only [slot] at hs <;> try exact absurd hs (by simp)
      rename_i i
      cases hei : kvs[i]? with
      | none => simp [hei] at hs
      | some kv =>
        obtain ⟨k, n'⟩ := kv
        simp only [hei] at hs
        simp only [replaceVarRecursive] at h
        split at h
        · simp only [Option.map_eq_some'] at h
          obtain ⟨rs, hrs, rfl⟩ := h
          obtain ⟨r', hri, hr'⟩ := replaceEntries_getElem x v kvs rs i k n' hrs hei
          obtain ⟨a', h'⟩ :=
            replaceVarRecursive_string_slot x v p _ .settable _ n' r' a s hr' hs ha
          exact ⟨a', by simpa [slot, hri] using h'⟩
        · simp at h

theorem baseline_struct (dc : Bool) (fs : List (Visibility × Node)) (copy : Node)
    (hc : copy = zero (.struct dc fs) ∨ copy = .struct dc fs) :
    ∃ cfs, baseline dc fs copy = .struct dc cfs ∧ (cfs = zeroFields fs ∨ cfs = fs) := by
  unfold baseline
  by_cases hdc : dc = true
  · exact ⟨fs, by simp [hdc], Or.inr rfl⟩
  · rcases hc with rfl | rfl
    · exact ⟨zeroFields fs, by simp [hdc, zero], Or.inl rfl⟩
    · exact ⟨fs, by simp [hdc], Or.inr rfl⟩

mutual
/-- The rebuilt value has the shape of the source, when `copy` starts as the
zero value or as a clone of the source. -/
theorem shape_replaceVarRecursive (x v : String) :
    ∀ (n : Node) (acc : Access) (copy r : Node), (copy = zero n ∨ copy = n) →
      replaceVarRecursive x v acc copy n = some r → shape acc r = shape acc n
  | .nilPtr, acc, copy, r, hc, h => by
    simp only [replaceVarRecursive, Option.some.injEq] at h
    subst h
    rcases hc with rfl | rfl <;> simp [zero, shape]
  | .nilIface, acc, copy, r, hc, h => by
    simp only [replaceVarRecursive, Option.some.injEq] at h
    subst h
    rcases hc with rfl | rfl <;> simp [zero, shape]
  | .ptr e, acc, copy, r, _, h => by
    simp only [replaceVarRecursive] at h
    split at h
    · simp only [Option.map_eq_some'] at h
      obtain ⟨r', hr', rfl⟩ := h
      simp only [shape, Node.ptr.injEq]
      exact shape_replaceVarRecursive x v e acc _ r' (Or.inl rfl) hr'
    · simp at h
  | .iface e, acc, copy, r, _, h => by
    simp only [replaceVarRecursive] at h
    cases hr : replaceVarRecursive x v .settable (zero e) e with
    | none => simp [hr] at h
    | some r' =>
      simp only [hr] at h
      split at h
      · simp only [Option.some.injEq] at h
        subst h
        simp only [shape, Node.iface.injEq]
        exact shape_replaceVarRecursive x v e .settable _ r' (Or.inl rfl) hr
      · simp at h
  | .struct dc fs, acc, copy, r, hc, h => by
    simp only [replaceVarRecursive] at h
    split at h
    · simp at h
    · obtain ⟨cfs, hb, hcfs⟩ := baseline_struct dc fs copy hc
      simp only [hb, Node.fieldList, Node.setFields, Option.map_eq_some'] at h
      obtain ⟨rs, hrs, rfl⟩ := h
      simp only [shape, Node.struct.injEq, true_and]
      exact shape_replaceFields x v fs acc cfs rs hcfs hrs
  | .slice es, acc, copy, r, _, h => by
    simp only [replaceVarRecursive] at h
    split at h
    · simp only [Option.map_eq_some'] at h
      obtain ⟨rs, hrs, rfl⟩ := h
      simp only [shape, Node.slice.injEq]
      exact shape_replaceElems x v es acc.ro rs hrs
    · simp at h
  | .map kvs, acc, copy, r, _, h => by
    simp only [replaceVarRecursive] at h
    split at h
    · simp only [Option.map_eq_some'] at h
      obtain ⟨rs, hrs, rfl⟩ := h
      simp only [shape, Node.map.injEq]
      exact shape_replaceEntries x v kvs rs hrs
    · simp at h
  | .str s, acc, copy, r, hc, h => by
    simp only [replaceVarRecursive] at h
    split at h
    · simp only [Option.some.injEq] at h
      subst h
      simp [shape]
    · simp only [Option.some.injEq] at h
      subst h
      rcases hc with rfl | rfl <;> simp [zero, shape]
  | .other c, acc, copy, r, hc, h => by
    simp only [replaceVarRecursive] at h
    split at h
    · simp only [Option.some.injEq] at h
      subst h
      rfl
    · rename_i hset
      simp only [Option.some.injEq] at h
      subst h
      rcases hc with rfl | rfl <;> simp [zero, shape, hset]
theorem shape_replaceFields (x v : String) :
    ∀ (fs : List (Visibility × Node)) (acc : Access) (cfs rs : List (Visibility × Node)),
      (cfs = zeroFields fs ∨ cfs = fs) → replaceFields x v acc cfs fs = some rs →
      shapeFields acc rs = shapeFields acc fs
  | [], acc, cfs, rs, hc, h => by
    simp only [replaceFields, Option.some.injEq] at h
    subst h
    rcases hc with rfl | rfl <;> simp [zeroFields, shapeFields]
  | (vis, n) :: fs, acc, cfs, rs, hc, h => by
    have hcfs : ∃ c cfs', cfs = (vis, c) :: cfs' ∧ (c = zero n ∨ c = n) ∧
        (cfs' = zeroFields fs ∨ cfs' = fs) := by
      rcases hc with rfl | rfl
      · exact ⟨zero n, zeroFields fs, by simp [zeroFields], Or.inl rfl, Or.inl rfl⟩
      · exact ⟨n, fs, rfl, Or.inr rfl, Or.inr rfl⟩
    obtain ⟨c, cfs', rfl, hc1, hc2⟩ := hcfs
    simp only [replaceFields] at h
    cases hr : replaceVarRecursive x v (acc.Field vis) c n with
    | none => simp [hr] at h
    | some r0 =>
      simp only [hr, Option.map_eq_some'] at h
      obtain ⟨rs', hrs', rfl⟩ := h
      simp only [shapeFields, List.cons.injEq, Prod.mk.injEq, true_and]
      exact ⟨shape_replaceVarRecursive x v n _ c r0 hc1 hr,
        shape_replaceFields x v fs acc cfs' rs' hc2 hrs'⟩
theorem shape_replaceElems (x v : String) :
    ∀ (es : List Node) (acc : Access) (rs : List Node),
      replaceElems x v acc es = some rs → shapeElems acc rs = shapeElems acc es
  | [], acc, rs, h => by
    simp only [replaceElems, Option.some.injEq] at h
    subst h
    rfl
  | e :: es, acc, rs, h => by
    simp only [replaceElems] at h
    cases hr : replaceVarRecursive x v acc (zero e) e with
    | none => simp [hr] at h
    | some r0 =>
      simp only [hr, Option.map_eq_some'] at h
      obtain ⟨rs', hrs', rfl⟩ := h
      simp only [shapeElems, List.cons.injEq]
      exact ⟨shape_replaceVarRecursive x v e acc _ r0 (Or.inl rfl) hr,
        shape_replaceElems x v es acc rs' hrs'⟩
theorem shape_replaceEntries (x v : String) :
    ∀ (kvs rs : List (String × Node)),
      replaceEntries x v kvs = some rs → shapeEntries rs = shapeEntries kvs
  | [], rs, h => by
    simp only [replaceEntries, Option.some.injEq] at h
    subst h
    rfl
  | (k, n) :: kvs, rs, h => by
    simp only [replaceEntries] at h
    cases hr : replaceVarRecursive x v .settable (zero n) n with
    | none => simp [hr] at h
    | some r0 =>
      simp only [hr, Option.map_eq_some'] at h
      obtain ⟨rs', hrs', rfl⟩ := h
      simp only [shapeEntries, List.cons.injEq, Prod.mk.injEq, true_and]
      exact ⟨shape_replaceVarRecursive x v n .settable _ r0 (Or.inl rfl) hr,
        shape_replaceEntries x v kvs rs' hrs'⟩
end

mutual
/-- On a value whose record fields are all exported the walk does not panic. -/
theorem replaceVarRecursive_returns (x v : String) :
    ∀ (n copy : Node), exportedOnly n = true → (copy = zero n ∨ copy = n) →
      ∃ r, replaceVarRecursive x v .settable copy n = some r
  | .nilPtr, copy, _, _ => ⟨copy, by simp [replaceVarRecursive]⟩
  | .nilIface, copy, _, _ => ⟨copy, by simp [replaceVarRecursive]⟩
  | .ptr e, copy, he, _ => by
    simp only [exportedOnly] at he
    obtain ⟨r, hr⟩ := replaceVarRecursive_returns x v e (zero e) he (Or.inl rfl)
    exact ⟨.ptr r, by simp [replaceVarRecursive, Access.CanSet, hr]⟩
  | .iface e, copy, he, _ => by
    simp only [exportedOnly] at he
    obtain ⟨r, hr⟩ := replaceVarRecursive_returns x v e (zero e) he (Or.inl rfl)
    exact ⟨.iface r, by simp [replaceVarRecursive, Access.CanSet, hr]⟩
  | .struct dc fs, copy, he, hc => by
    simp only [exportedOnly] at he
    obtain ⟨cfs, hb, hcfs⟩ := baseline_struct dc fs copy hc
    obtain ⟨rs, hrs⟩ := replaceFields_returns x v fs cfs he hcfs
    exact ⟨.struct dc rs, by
      simp [replaceVarRecursive, Access.CanSet, hb, Node.fieldList, Node.setFields, hrs]⟩
  | .slice es, copy, he, _ => by
    simp only [exportedOnly] at he
    obtain ⟨rs, hrs⟩ := replaceElems_returns x v es he
    exact ⟨.slice rs, by simp [replaceVarRecursive, Access.CanSet, Access.ro, hrs]⟩
  | .map kvs, copy, he, _ => by
    simp only [exportedOnly] at he
    obtain ⟨rs, hrs⟩ := replaceEntries_returns x v kvs he
    exact ⟨.map rs, by simp [replaceVarRecursive, Access.CanSet, hrs]⟩
  | .str s, copy, _, _ =>
    ⟨.str (replaceAll s (token x) v), by simp [replaceVarRecursive, Access.CanSet]⟩
  | .other k, copy, _, _ => ⟨.other k, by simp [replaceVarRecursive, Access.CanSet]⟩
theorem replaceFields_returns (x v : String) :
    ∀ (fs cfs : List (Visibility × Node)), exportedFields fs = true →
      (cfs = zeroFields fs ∨ cfs = fs) →
      ∃ rs, replaceFields x v .settable cfs fs = some rs
  | [], cfs, _, _ => ⟨cfs, by simp [replaceFields]⟩
  | (vis, n) :: fs, cfs, he, hc => by
    simp only [exportedFields, Bool.and_eq_true, decide_eq_true_eq] at he
    obtain ⟨⟨rfl, hn⟩, hfs⟩ := he
    have hcfs : ∃ c cfs', cfs = (.exported, c) :: cfs' ∧ (c = zero n ∨ c = n) ∧
        (cfs' = zeroFields fs ∨ cfs' = fs) := by
      rcases hc with rfl | rfl
      · exact ⟨zero n, zeroFields fs, by simp [zeroFields], Or.inl rfl, Or.inl rfl⟩
      · exact ⟨n, fs, rfl, Or.inr rfl, Or.inr rfl⟩
    obtain ⟨c, cfs', rfl, hc1, hc2⟩ := hcfs
    obtain ⟨r, hr⟩ := replaceVarRecursive_returns x v n c hn hc1
    obtain ⟨rs, hrs⟩ := replaceFields_returns x v fs cfs' hfs hc2
    exact ⟨(.exported, r) :: rs, by simp [replaceFields, Access.Field, hr, hrs]⟩
theorem replaceElems_returns (x v : String) :
    ∀ (es : List Node), exportedElems es = true →
      ∃ rs, replaceElems x v .settable es = some rs
  | [], _ => ⟨[], by simp [replaceElems]⟩
  | e :: es, he => by
    simp only [exportedElems, Bool.and_eq_true] at he
    obtain ⟨r, hr⟩ := replaceVarRecursive_returns x v e (zero e) he.1 (Or.inl rfl)
    obtain ⟨rs, hrs⟩ := replaceElems_returns x v es he.2
    exact ⟨r :: rs, by simp [replaceElems, hr, hrs]⟩
theorem replaceEntries_returns (x v : String) :
    ∀ (kvs : List (String × Node)), exportedEntries kvs = true →
      ∃ rs, replaceEntries x v kvs = some rs
  | [], _ => ⟨[], by simp [replaceEntries]⟩
  | (k, n) :: kvs, he => by
    simp only [exportedEntries, Bool.and_eq_true] at he
    obtain ⟨r, hr⟩ := replaceVarRecursive_returns x v n (zero n) he.1 (Or.inl rfl)
    obtain ⟨rs, hrs⟩ := replaceEntries_returns x v kvs he.2
    exact ⟨(k, r) :: rs, by simp [replaceEntries, hr, hrs]⟩
end

/-- `replaceVar` returns on every value whose record fields are all exported. -/
theorem replaceVar_returns (g : Node) (x v : String) (hg : exportedOnly g = true) :
    ∃ g', replaceVar g x v = some g' :=
  replaceVarRecursive_returns x v g (zero g) hg (Or.inl rfl)

/-! ## Facts about the resolver -/

theorem splitSlash_length : ∀ l : List Char, (splitSlash l).length = l.count '/' + 1
  | [] => by simp [splitSlash]
  | c :: cs => by
    have ih := splitSlash_length cs
    by_cases hc : c = '/'
    · subst hc
      simp [splitSlash, ih]
    · have hc' : ('/' == c) = false := by
        simp only [beq_eq_false_iff_ne, ne_eq]
        exact fun h => hc h.symm
      cases hs : splitSlash cs with
      | nil => simp [hs] at ih
      | cons p ps =>
        simp only [hs, List.length_cons] at ih
        simp [splitSlash, hc, hs, List.count_cons, hc', ih]

theorem splitSlash_plain : ∀ l : List Char, '/' ∉ l → splitSlash l = [l]
  | [], _ => by simp [splitSlash]
  | c :: cs, h => by
    simp only [List.mem_cons, not_or] at h
    have hc : c ≠ '/' := fun e => h.1 e.symm
    simp [splitSlash, hc, splitSlash_plain cs h.2]

theorem splitSlash_append : ∀ a b : List Char, '/' ∉ a →
    splitSlash (a ++ '/' :: b) = a :: splitSlash b
  | [], b, _ => by simp [splitSlash]
  | c :: cs, b, h => by
    simp only [List.mem_cons, not_or] at h
    have hc : c ≠ '/' := fun e => h.1 e.symm
    simp [splitSlash, hc, splitSlash_append cs b h.2]

theorem Split_length (v : String) : (Split v).length = v.data.count '/' + 1 := by
  simp [Split, splitSlash_length]

theorem variableSecret_error {σ : Type} (c : Collaborators σ) (dep v : String) (n : Nat)
    (h : variableSecret c dep v = .error n) :
    2 ≤ v.data.count '/' ∧ n = v.data.count '/' + 1 := by
  unfold variableSecret at h
  split at h
  · rename_i hmem
    split at h
    · rename_i hlen
      simp only [Except.error.injEq] at h
      rw [Split_length] at hlen h
      have hpos : 0 < v.data.count '/' := List.count_pos_iff.mpr hmem
      omega
    · simp at h
  · simp at h

theorem variableSecret_of_two_le {σ : Type} (c : Collaborators σ) (dep v : String)
    (h : 2 ≤ v.data.count '/') :
    variableSecret c dep v = .error (v.data.count '/' + 1) := by
  have hmem : '/' ∈ v.data := List.count_pos_iff.mp (by omega)
  simp only [variableSecret, hmem, Split_length, if_true]
  rw [if_pos (by omega)]

theorem variableSecret_plain {σ : Type} (c : Collaborators σ) (dep v : String)
    (h : '/' ∉ v.data) :
    variableSecret c dep v = .ok (c.DeploymentSecretName dep v, c.ImplicitVariableKeyName) := by
  simp [variableSecret, h]

theorem variableSecret_pair {σ : Type} (c : Collaborators σ) (dep base sub : String)
    (hb : '/' ∉ base.data) (hs : '/' ∉ sub.data) :
    variableSecret c dep (base ++ "/" ++ sub) = .ok (c.DeploymentSecretName dep base, sub) := by
  have hd : (base ++ "/" ++ sub).data = base.data ++ '/' :: sub.data := by
    simp [String.data_append]
  have hsplit : Split (base ++ "/" ++ sub) = [base, sub] := by
    simp [Split, hd, splitSlash_append _ _ hb, splitSlash_plain _ hs]
  have hmem : '/' ∈ (base ++ "/" ++ sub).data := by simp [hd]
  simp [variableSecret, hmem, hsplit]

theorem set_at_length (A : List String) (n k : Nat) (a : String) (hn : n = A.length) :
    (A ++ List.replicate (k + 1) "").set n a = (A ++ [a]) ++ List.replicate k "" := by
  subst hn
  simp [List.set_append, List.replicate_succ]

theorem isVariableFetch_mono (x : Call) (lo lo' hi hi' : Nat) (h1 : lo' ≤ lo) (h2 : hi ≤ hi')
    (h : x.isVariableFetch lo hi) : x.isVariableFetch lo' hi' := by
  cases x with
  | fetch pu t a b d =>
    cases pu with
    | implicitVar k =>
      simp only [Call.isVariableFetch] at h ⊢
      omega
    | _ => simp [Call.isVariableFetch] at h
  | _ => simp [Call.isVariableFetch] at h

theorem secretNameOf_ok {σ : Type} (c : Collaborators σ) (dep v nm key : String)
    (h : variableSecret c dep v = .ok (nm, key)) : secretNameOf c dep v = nm := by
  simp [secretNameOf, h]

/-- The loop, when it runs to the end: every variable has a name and a fetched
secret, `varSecrets` holds the names in order, and only variable fetches were
added to the calls. -/
theorem variablesLoop_ok {σ : Type} (c : Collaborators σ) (bdpl : BOSHDeployment) (ns : String)
    (vars : List String) :
    ∀ (rest done : List String) (m : Node) (calls : List Call)
      (m' : Node) (vs' : List String) (calls' : List Call),
      vars = done ++ rest →
      variablesLoop c bdpl ns vars rest done.length m
        (done.map (secretNameOf c bdpl.Name) ++ List.replicate rest.length "") calls
        = .ok (m', vs', calls') →
      vs' = vars.map (secretNameOf c bdpl.Name) ∧
      (∀ v ∈ rest, ∃ p, variableSecret c bdpl.Name v = .ok p) ∧
      ∃ extra, calls' = calls ++ extra ∧
        ∀ x ∈ extra, x.isVariableFetch done.length vars.length
  | [], done, m, calls, m', vs', calls', hv, h => by
    simp only [variablesLoop, Except.ok.injEq, Prod.mk.injEq] at h
    obtain ⟨-, rfl, rfl⟩ := h
    subst hv
    exact ⟨by simp, by simp, [], by simp, by simp⟩
  | v :: rest, done, m, calls, m', vs', calls', hv, h => by
    simp only [variablesLoop] at h
    cases hsec : variableSecret c bdpl.Name v with
    | error n => simp [hsec] at h
    | ok p =>
      obtain ⟨nm, key⟩ := p
      simp only [hsec] at h
      cases hres : resourceData c.client ns .secret nm key with
      | error e => simp [hres] at h
      | ok varData =>
        simp only [hres] at h
        cases hrep : replaceVar m v varData with
        | none => simp [hrep] at h
        | some m1 =>
          simp only [hrep, List.length_cons] at h
          rw [set_at_length _ _ _ _ (by simp)] at h
          have hv' : vars = (done ++ [v]) ++ rest := by simp [hv]
          have hnm := secretNameOf_ok c bdpl.Name v nm key hsec
          have ih := variablesLoop_ok c bdpl ns vars rest (done ++ [v]) m1
            (calls ++ [.fetch (.implicitVar done.length) .secret ns nm key]) m' vs' calls' hv'
          simp only [List.length_append, List.length_singleton, List.map_append, List.map_cons,
            List.map_nil, hnm] at ih
          obtain ⟨h1, h2, extra, h3, h4⟩ := ih h
          refine ⟨h1, ?_, .fetch (.implicitVar done.length) .secret ns nm key :: extra, ?_, ?_⟩
          · intro w hw
            rcases List.mem_cons.mp hw with rfl | hw
            · exact ⟨_, hsec⟩
            · exact h2 w hw
          · simp [h3]
          · intro x hx
            rcases List.mem_cons.mp hx with rfl | hx
            · simp [Call.isVariableFetch, hv]
            · exact isVariableFetch_mono x _ _ _ _ (by omega) (le_refl _) (h4 x hx)

/-- The loop, when it stops early. -/
theorem variablesLoop_error {σ : Type} (c : Collaborators σ) (bdpl : BOSHDeployment)
    (ns : String) (vars : List String) :
    ∀ (rest done : List String) (m : Node) (calls : List Call) (run : Run),
      vars = done ++ rest →
      variablesLoop c bdpl ns vars rest done.length m
        (done.map (secretNameOf c bdpl.Name) ++ List.replicate rest.length "") calls
        = .error run →
      LoopExit c bdpl ns vars done.length calls run
  | [], done, m, calls, run, _, h => by simp [variablesLoop] at h
  | v :: rest, done, m, calls, run, hv, h => by
    have hlen : done.length < vars.length := by simp [hv]
    have hget : vars[done.length]? = some v := by
      rw [hv, List.getElem?_append_right (le_refl _)]
      simp
    simp only [variablesLoop] at h
    cases hsec : variableSecret c bdpl.Name v with
    | error n =>
      simp only [hsec, Except.error.injEq] at h
      subst h
      refine ⟨rfl, rfl, done.length, [], le_refl _, hlen, by simp [failed], ?_, Or.inl ?_⟩
      · intro k w h1 h2
        omega
      · exact ⟨rfl, by simp, v, n, hget, hsec, rfl, rfl⟩
    | ok p =>
      obtain ⟨nm, key⟩ := p
      simp only [hsec] at h
      cases hres : resourceData c.client ns .secret nm key with
      | error e =>
        simp only [hres, Except.error.injEq] at h
        subst h
        refine ⟨rfl, rfl, done.length, [.fetch (.implicitVar done.length) .secret ns nm key],
          le_refl _, hlen, by simp [failed], ?_, Or.inr (Or.inl ?_)⟩
        · intro k w h1 h2
          omega
        · refine ⟨rfl, by simp [Call.isVariableFetch], v, nm, key, e, hget, hsec, hres, ?_, rfl⟩
          simp [failed, hv]
      | ok varData =>
        simp only [hres] at h
        cases hrep : replaceVar m v varData with
        | none =>
          simp only [hrep, Except.error.injEq] at h
          subst h
          refine ⟨rfl, rfl, done.length, [.fetch (.implicitVar done.length) .secret ns nm key],
            le_refl _, hlen, by simp [panicked], ?_, Or.inr (Or.inr ?_)⟩
          · intro k w h1 h2
            omega
          · exact ⟨rfl, by simp [Call.isVariableFetch], ⟨v, _, hget, hsec⟩, rfl, rfl⟩
        | some m1 =>
          simp only [hrep, List.length_cons] at h
          rw [set_at_length _ _ _ _ (by simp)] at h
          have hv' : vars = (done ++ [v]) ++ rest := by simp [hv]
          have hnm := secretNameOf_ok c bdpl.Name v nm key hsec
          have ih := variablesLoop_error c bdpl ns vars rest (done ++ [v]) m1
            (calls ++ [.fetch (.implicitVar done.length) .secret ns nm key]) run hv'
          simp only [List.length_append, List.length_singleton, List.map_append, List.map_cons,
            List.map_nil, hnm] at ih
          obtain ⟨h1, h2, j, extra, hj1, hj2, hcalls, hearlier, hexit⟩ := ih h
          have hnew : ∀ hi, done.length < hi →
              (Call.fetch (.implicitVar done.length) .secret ns nm key).isVariableFetch
                done.length hi := by
            intro hi hhi
            simp only [Call.isVariableFetch]
            omega
          have hext : ∀ hi, done.length < hi →
              (∀ x ∈ extra, x.isVariableFetch (done.length + 1) hi) →
              ∀ x ∈ Call.fetch (.implicitVar done.length) .secret ns nm key :: extra,
                x.isVariableFetch done.length hi := by
            intro hi hhi hall x hx
            rcases List.mem_cons.mp hx with rfl | hx
            · exact hnew hi hhi
            · exact isVariableFetch_mono x _ _ _ _ (by omega) (le_refl _) (hall x hx)
          refine ⟨h1, h2, j, .fetch (.implicitVar done.length) .secret ns nm key :: extra,
            by omega, hj2, by simp [hcalls], ?_, ?_⟩
          · intro k w hk1 hk2 hw
            by_cases hk : k = done.length
            · subst hk
              rw [hget] at hw
              simp only [Option.some.injEq] at hw
              subst hw
              exact ⟨_, hsec⟩
            · exact hearlier k w (by omega) hk2 hw
          · rcases hexit with ⟨hs, hf, hrest⟩ | ⟨hs, hf, hrest⟩ | ⟨hs, hf, hrest⟩
            · exact Or.inl ⟨hs, hext j (by omega) hf, hrest⟩
            · exact Or.inr (Or.inl ⟨hs, hext (j + 1) (by omega) hf, hrest⟩)
            · exact Or.inr (Or.inr ⟨hs, hext (j + 1) (by omega) hf, hrest⟩)

theorem runFrom_early {σ : Type} (c : Collaborators σ) (bdpl : BOSHDeployment) (ns : String)
    (calls : List Call) (site : Site) (e : String) (hsite : site.isEarly = true) :
    RunFrom c bdpl ns calls (failed calls site [] (some []) e) :=
  Or.inl ⟨rfl, rfl, rfl, rfl, ⟨e, rfl⟩, hsite⟩

theorem runShape_early {σ : Type} (c : Collaborators σ) (bdpl : BOSHDeployment) (ns : String)
    (calls : List Call) (site : Site) (e : String)
    (hcalls : ∀ x ∈ calls, x.forVariable = false) (hsite : site.isEarly = true) :
    RunShape c bdpl ns (failed calls site [] (some []) e) :=
  ⟨calls, hcalls, runFrom_early c bdpl ns calls site e hsite⟩

theorem runShape_of_earlyFail {σ : Type} (c : Collaborators σ) (bdpl : BOSHDeployment)
    (ns : String) (run : Run) (h : EarlyFail run) : RunShape c bdpl ns run := by
  obtain ⟨calls, site, e, rfl, hcalls, hsite⟩ := h
  exact ⟨calls, hcalls, runFrom_early c bdpl ns calls site e hsite⟩

/-- The shared tail of both strategies produces a run of the stated shape. -/
theorem resolve_from {σ : Type} (c : Collaborators σ) (bdpl : BOSHDeployment) (ns : String)
    (m bytes : String) (calls : List Call) :
    RunFrom c bdpl ns (calls ++ [.LoadYAML bytes]) (resolve c bdpl ns m bytes calls) := by
  cases hload : c.LoadYAML bytes with
  | error e =>
    have hr : resolve c bdpl ns m bytes calls = failed (calls ++ [.LoadYAML bytes]) .loadYAML []
        (some []) (wrapf e ("Loading yaml failed in interpolation task after applying ops " ++
          c.goSyntax m)) := by
      simp only [resolve, hload]
    rw [hr]
    exact runFrom_early c bdpl ns _ _ _ rfl
  | ok manifest =>
    cases hvars : c.ImplicitVariables manifest with
    | error e =>
      have hr : resolve c bdpl ns m bytes calls = failed (calls ++ [.LoadYAML bytes])
          .implicitVariables [] (some []) (wrapf e "failed to list implicit variables") := by
        simp only [resolve, hload, hvars]
      rw [hr]
      exact runFrom_early c bdpl ns _ _ _ rfl
    | ok vars =>
      cases hloop : variablesLoop c bdpl ns vars vars 0 manifest
          (List.replicate vars.length "") (calls ++ [.LoadYAML bytes]) with
      | error run =>
        have hr : resolve c bdpl ns m bytes calls = run := by
          simp only [resolve, hload, hvars, hloop]
        rw [hr]
        have h := variablesLoop_error c bdpl ns vars vars [] manifest
          (calls ++ [.LoadYAML bytes]) run (by simp) (by simpa using hloop)
        have hv : run.vars = vars := h.2.1
        exact Or.inr (Or.inl (by simpa [hv] using h))
      | ok st =>
        obtain ⟨m', vs', calls'⟩ := st
        obtain ⟨h1, h2, extra, h3, h4⟩ := variablesLoop_ok c bdpl ns vars vars [] manifest
          (calls ++ [.LoadYAML bytes]) m' vs' calls' (by simp) (by simpa using hloop)
        simp only [List.length_nil] at h4
        cases hadd : c.ApplyAddons m' with
        | error e =>
          have hr : resolve c bdpl ns m bytes calls =
              failed calls' .applyAddons vars (some vs') (wrapf e "failed to apply addons") := by
            simp only [resolve, hload, hvars, hloop, hadd]
          rw [hr, h1]
          exact Or.inr (Or.inr ⟨h2, ⟨extra, h3, h4⟩,
            Or.inl ⟨rfl, rfl, rfl, ⟨_, rfl⟩⟩⟩)
        | ok m'' =>
          cases m'' with
          | ptr target =>
            cases hdns : c.newDNSFunc bdpl.Name target with
            | error e =>
              have hr : resolve c bdpl ns m bytes calls = failed calls' .newDNS vars none e := by
                simp only [resolve, hload, hvars, hloop, hadd, hdns]
              rw [hr]
              exact Or.inr (Or.inr ⟨h2, ⟨extra, h3, h4⟩,
                Or.inr (Or.inl ⟨rfl, rfl, rfl, ⟨_, rfl⟩⟩)⟩)
            | ok dns =>
              have hr : resolve c bdpl ns m bytes calls =
                  ⟨calls', .done, vars, some (c.ApplyUpdateBlock (.ptr target) dns), some vs',
                    none⟩ := by
                simp only [resolve, hload, hvars, hloop, hadd, hdns]
              rw [hr, h1]
              exact Or.inr (Or.inr ⟨h2, ⟨extra, h3, h4⟩,
                Or.inr (Or.inr (Or.inl ⟨rfl, ⟨_, rfl⟩, rfl, rfl⟩))⟩)
          | _ =>
            have hr : resolve c bdpl ns m bytes calls = panicked calls' vars := by
              simp only [resolve, hload, hvars, hloop, hadd]
            rw [hr]
            exact Or.inr (Or.inr ⟨h2, ⟨extra, h3, h4⟩,
              Or.inr (Or.inr (Or.inr ⟨rfl, rfl, rfl, rfl⟩))⟩)

theorem resolve_shape {σ : Type} (c : Collaborators σ) (bdpl : BOSHDeployment) (ns : String)
    (m bytes : String) (calls : List Call) (hcalls : ∀ x ∈ calls, x.forVariable = false) :
    RunShape c bdpl ns (resolve c bdpl ns m bytes calls) := by
  refine ⟨calls ++ [.LoadYAML bytes], ?_, resolve_from c bdpl ns m bytes calls⟩
  intro x hx
  rcases List.mem_append.mp hx with hx | hx
  · exact hcalls x hx
  · simp only [List.mem_singleton] at hx
    subst hx
    rfl

theorem forVariable_append (calls extra : List Call)
    (h1 : ∀ x ∈ calls, x.forVariable = false) (h2 : ∀ x ∈ extra, x.forVariable = false) :
    ∀ x ∈ calls ++ extra, x.forVariable = false := by
  intro x hx
  rcases List.mem_append.mp hx with hx | hx
  · exact h1 x hx
  · exact h2 x hx

theorem buildOpsLoop_shape {σ : Type} (c : Collaborators σ) (bdpl : BOSHDeployment)
    (ns : String) :
    ∀ (ops : List ResourceReference) (i : Nat) (s : σ) (calls : List Call),
      (∀ x ∈ calls, x.forVariable = false) →
      (∀ run, buildOpsLoop c bdpl ns ops i s calls = .error run → EarlyFail run) ∧
      (∀ s' calls', buildOpsLoop c bdpl ns ops i s calls = .ok (s', calls') →
        ∀ x ∈ calls', x.forVariable = false)
  | [], i, s, calls, hcalls => by
    constructor
    · intro run h
      simp [buildOpsLoop] at h
    · intro s' calls' h
      simp only [buildOpsLoop, Except.ok.injEq, Prod.mk.injEq] at h
      obtain ⟨-, rfl⟩ := h
      exact hcalls
  | op :: ops, i, s, calls, hcalls => by
    cases hres : resourceData c.client ns op.RefType op.Name c.OpsSpecName with
    | error e =>
      constructor
      · intro run h
        simp only [buildOpsLoop, hres, Except.error.injEq] at h
        subst h
        exact ⟨_, _, _, rfl,
          forVariable_append _ _ hcalls (by simp [Call.forVariable]), rfl⟩
      · intro s' calls' h
        simp [buildOpsLoop, hres] at h
    | ok opsData =>
      cases hb : c.interpolator.BuildOps s opsData with
      | error e =>
        constructor
        · intro run h
          simp only [buildOpsLoop, hres, hb, Except.error.injEq] at h
          subst h
          exact ⟨_, _, _, rfl,
            forVariable_append _ _ hcalls (by simp [Call.forVariable]), rfl⟩
        · intro s' calls' h
          simp [buildOpsLoop, hres, hb] at h
      | ok s1 =>
        have ih := buildOpsLoop_shape c bdpl ns ops (i + 1) s1
          (calls ++ [.fetch (.ops i) op.RefType ns op.Name c.OpsSpecName, .BuildOps 0 opsData])
          (forVariable_append _ _ hcalls (by simp [Call.forVariable]))
        constructor
        · intro run h
          simp only [buildOpsLoop, hres, hb] at h
          exact ih.1 run h
        · intro s' calls' h
          simp only [buildOpsLoop, hres, hb] at h
          exact ih.2 s' calls' h

theorem interpolateEach_shape {σ : Type} (c : Collaborators σ) (bdpl : BOSHDeployment)
    (ns : String) :
    ∀ (ops : List ResourceReference) (i : Nat) (bytes : String) (calls : List Call),
      (∀ x ∈ calls, x.forVariable = false) →
      (∀ run, interpolateEach c bdpl ns ops i bytes calls = .error run →
        EarlyFail run) ∧
      (∀ bytes' calls', interpolateEach c bdpl ns ops i bytes calls = .ok (bytes', calls') →
        ∀ x ∈ calls', x.forVariable = false)
  | [], i, bytes, calls, hcalls => by
    constructor
    · intro run h
      simp [interpolateEach] at h
    · intro s' calls' h
      simp only [interpolateEach, Except.ok.injEq, Prod.mk.injEq] at h
      obtain ⟨-, rfl⟩ := h
      exact hcalls
  | op :: ops, i, bytes, calls, hcalls => by
    cases hres : resourceData c.client ns op.RefType op.Name c.OpsSpecName with
    | error e =>
      constructor
      · intro run h
        simp only [interpolateEach, hres, Except.error.injEq] at h
        subst h
        exact ⟨_, _, _, rfl,
          forVariable_append _ _ hcalls (by simp [Call.forVariable]), rfl⟩
      · intro s' calls' h
        simp [interpolateEach, hres] at h
    | ok opsData =>
      cases hb : c.interpolator.BuildOps c.interpolator.fresh opsData with
      | error e =>
        constructor
        · intro run h
          simp only [interpolateEach, hres, hb, Except.error.injEq] at h
          subst h
          exact ⟨_, _, _, rfl,
            forVariable_append _ _ hcalls (by simp [Call.forVariable]), rfl⟩
        · intro s' calls' h
          simp [interpolateEach, hres, hb] at h
      | ok s1 =>
        cases hi : c.interpolator.Interpolate s1 bytes with
        | error e =>
          constructor
          · intro run h
            simp only [interpolateEach, hres, hb, hi, Except.error.injEq] at h
            subst h
            exact ⟨_, _, _, rfl,
              forVariable_append _ _ hcalls (by simp [Call.forVariable]), rfl⟩
          · intro s' calls' h
            simp [interpolateEach, hres, hb, hi] at h
        | ok bytes1 =>
          have ih := interpolateEach_shape c bdpl ns ops (i + 1) bytes1
            (calls ++ [.fetch (.ops i) op.RefType ns op.Name c.OpsSpecName,
              .BuildOps i opsData, .Interpolate i bytes])
            (forVariable_append _ _ hcalls (by simp [Call.forVariable]))
          constructor
          · intro run h
            simp only [interpolateEach, hres, hb, hi] at h
            exact ih.1 run h
          · intro s' calls' h
            simp only [interpolateEach, hres, hb, hi] at h
            exact ih.2 s' calls' h

/-- Every run of `Manifest` has the stated shape. -/
theorem Manifest_shape {σ : Type} (c : Collaborators σ) (bdpl : BOSHDeployment) (ns : String) :
    RunShape c bdpl ns (Manifest c bdpl ns) := by
  have h0 : ∀ x ∈ [Call.fetch .manifest bdpl.Manifest.RefType ns bdpl.Manifest.Name
      c.ManifestSpecName], x.forVariable = false := by
    simp [Call.forVariable]
  cases hres : resourceData c.client ns bdpl.Manifest.RefType bdpl.Manifest.Name
      c.ManifestSpecName with
  | error e =>
    simp only [Manifest, hres]
    exact runShape_early c bdpl ns _ _ _ h0 rfl
  | ok m =>
    have hloop := buildOpsLoop_shape c bdpl ns bdpl.Ops 0 c.interpolator.fresh _ h0
    cases hb : buildOpsLoop c bdpl ns bdpl.Ops 0 c.interpolator.fresh
        [.fetch .manifest bdpl.Manifest.RefType ns bdpl.Manifest.Name c.ManifestSpecName] with
    | error run =>
      simp only [Manifest, hres, hb]
      exact runShape_of_earlyFail c bdpl ns run (hloop.1 run hb)
    | ok st =>
      obtain ⟨s, calls⟩ := st
      have hcalls := hloop.2 s calls hb
      simp only [Manifest, hres, hb]
      split
      · cases hi : c.interpolator.Interpolate s m with
        | error e =>
          exact runShape_early c bdpl ns _ _ _
            (forVariable_append _ _ hcalls (by simp [Call.forVariable])) rfl
        | ok bytes =>
          exact resolve_shape c bdpl ns m bytes _
            (forVariable_append _ _ hcalls (by simp [Call.forVariable]))
      · exact resolve_shape c bdpl ns m m _ hcalls

/-- Every run of `ManifestDetailed` has the stated shape. -/
theorem ManifestDetailed_shape {σ : Type} (c : Collaborators σ) (bdpl : BOSHDeployment)
    (ns : String) : RunShape c bdpl ns (ManifestDetailed c bdpl ns) := by
  have h0 : ∀ x ∈ [Call.fetch .manifest bdpl.Manifest.RefType ns bdpl.Manifest.Name
      c.ManifestSpecName], x.forVariable = false := by
    simp [Call.forVariable]
  cases hres : resourceData c.client ns bdpl.Manifest.RefType bdpl.Manifest.Name
      c.ManifestSpecName with
  | error e =>
    simp only [ManifestDetailed, hres]
    exact runShape_early c bdpl ns _ _ _ h0 rfl
  | ok m =>
    have hloop := interpolateEach_shape c bdpl ns bdpl.Ops 0 m _ h0
    cases hb : interpolateEach c bdpl ns bdpl.Ops 0 m
        [.fetch .manifest bdpl.Manifest.RefType ns bdpl.Manifest.Name c.ManifestSpecName] with
    | error run =>
      simp only [ManifestDetailed, hres, hb]
      exact runShape_of_earlyFail c bdpl ns run (hloop.1 run hb)
    | ok st =>
      obtain ⟨bytes, calls⟩ := st
      simp only [ManifestDetailed, hres, hb]
      exact resolve_shape c bdpl ns m bytes _ (hloop.2 bytes calls hb)

theorem run_shape {σ : Type} (c : Collaborators σ) (bdpl : BOSHDeployment) (ns : String)
    (run : Run) (hrun : run = Manifest c bdpl ns ∨ run = ManifestDetailed c bdpl ns) :
    RunShape c bdpl ns run := by
  rcases hrun with rfl | rfl
  · exact Manifest_shape c bdpl ns
  · exact ManifestDetailed_shape c bdpl ns

theorem replaceGo_occurrence (old new : List Char) (hold : old ≠ []) :
    ∀ (a b : List Char), ¬ old <:+: a ++ old.dropLast →
      replaceGo old new 0 (a ++ old ++ b) = a ++ new ++ replaceGo old new 0 b
  | [], b, _ => by
    cases old with
    | nil => exact absurd rfl hold
    | cons c old' =>
      have hp : (c :: old').isPrefixOf (c :: (old' ++ b)) = true :=
        List.isPrefixOf_iff_prefix.mpr ⟨b, by simp⟩
      simp only [List.nil_append, List.cons_append, replaceGo, hp, if_true, List.length_cons,
        Nat.add_sub_cancel]
      rw [replaceGo_skip]
      simp
  | c :: a, b, h => by
    have hp : old.isPrefixOf (c :: (a ++ old ++ b)) = false := by
      by_contra hc
      simp only [Bool.not_eq_false] at hc
      have h1 : old <+: c :: a ++ old ++ b := by
        simpa using List.isPrefixOf_iff_prefix.mp hc
      have h2 : c :: a ++ old.dropLast <+: c :: a ++ old ++ b := by
        refine ⟨[old.getLast hold] ++ b, ?_⟩
        have := List.dropLast_append_getLast hold
        simp only [List.append_assoc]
        rw [← List.append_assoc old.dropLast, this]
      have h3 : old.length ≤ (c :: a ++ old.dropLast).length := by
        have := List.length_pos.mpr hold
        simp only [List.cons_append, List.length_cons, List.length_append, List.length_dropLast]
        omega
      exact h (List.prefix_of_prefix_length_le h1 h2 h3).isInfix
    have ht : ¬ old <:+: a ++ old.dropLast :=
      fun hi => h (hi.trans (List.suffix_cons c _).isInfix)
    have ih := replaceGo_occurrence old new hold a b ht
    simp only [List.cons_append, List.append_assoc] at hp ih ⊢
    simp [replaceGo, hp, ih]

theorem token_data (x : String) : (token x).data = '(' :: '(' :: (x.data ++ [')', ')']) := by
  simp [token, String.data_append]

/-- C1, as amended: in the value that `replaceVar` returns, a string in a
settable slot is the source string with the placeholder replaced by the value
everywhere, and a string in a settable slot that holds no placeholder is the
source string. The replacement is the left-to-right one: up to and including
the first occurrence the result is the text before it followed by the value,
and the rest is replaced in the same way. -/
theorem replaceVar_settable_strings (g g' : Node) (x v : String) (p : List Step)
    (a : Access) (s : String) (hret : replaceVar g x v = some g')
    (hleaf : slot .settable g p = some (a, .str s)) (hset : a.CanSet = true) :
    g'.at p = some (.str (replaceAll s (token x) v)) ∧
    (¬ Occurs (token x) s → g'.at p = some (.str s)) ∧
    (∀ pre post : String, s = pre ++ token x ++ post →
      ¬ Occurs (token x) (pre ++ ⟨(token x).data.dropLast⟩) →
      replaceAll s (token x) v = pre ++ v ++ replaceAll post (token x) v) := by
  obtain ⟨a', h⟩ := replaceVarRecursive_string_slot x v p .settable .settable _ g g' a s
    hret hleaf hset
  have h1 : g'.at p = some (.str (replaceAll s (token x) v)) := by
    simp [Node.at, h]
  refine ⟨h1, ?_, ?_⟩
  · intro hno
    have : replaceAll s (token x) v = s := by
      unfold replaceAll
      rw [replaceGo_absent _ _ _ hno]
    rw [h1, this]
  · intro pre post hs hno
    subst hs
    have hne : (token x).data ≠ [] := by simp [token_data]
    have := replaceGo_occurrence (token x).data v.data hne pre.data post.data
      (by simpa [Occurs, String.data_append] using hno)
    apply String.ext
    simp only [replaceAll, String.data_append]
    simpa using this

/-- A pointer to a record with an exported and an unexported string field,
both holding the placeholder of `x`: only the exported one is replaced. -/
theorem replaceVar_settable_strings_witness :
    (Node.ptr (.struct false [(.exported, .str "a((x))b((x))"), (.unexported, .str "((x))")])).at
        [.elem, .field 0] = some (.str "a((x))b((x))") ∧
    (Node.ptr (.struct false [(.exported, .str "avbv"), (.unexported, .str "")])).at
        [.elem, .field 0] = some (.str (replaceAll "a((x))b((x))" (token "x") "v")) :=
  ⟨rfl, (replaceVar_settable_strings
    (.ptr (.struct false [(.exported, .str "a((x))b((x))"), (.unexported, .str "((x))")]))
    (.ptr (.struct false [(.exported, .str "avbv"), (.unexported, .str "")]))
    "x" "v" [.elem, .field 0] .settable "a((x))b((x))" rfl rfl rfl).1⟩

/-- C1, as stated, fails: a string under an unexported field of a record
without `DeepCopy` holds no placeholder, yet the returned value has the empty
string in its place. -/
theorem replaceVar_strings_counterexample :
    replaceVar (.ptr (.struct false [(.exported, .str "((x))"), (.unexported, .str "abc")]))
        "x" "v"
      = some (.ptr (.struct false [(.exported, .str "v"), (.unexported, .str "")])) ∧
    (Node.ptr (.struct false [(.exported, .str "((x))"), (.unexported, .str "abc")])).at
        [.elem, .field 1] = some (.str "abc") ∧
    ¬ Occurs (token "x") "abc" ∧
    (Node.ptr (.struct false [(.exported, .str "v"), (.unexported, .str "")])).at
        [.elem, .field 1] = some (.str "") ∧
    "abc" ≠ "" := by
  refine ⟨rfl, rfl, ?_, rfl, by decide⟩
  intro h
  have := h.length_le
  revert this
  decide

/-- C2, as amended: the value that `replaceVar` returns has the shape of the
source: pointers and interfaces are nil where the source is nil and set where
it is set, records keep their declarations, sequences their length and order,
maps their keys unchanged, and every scalar in a settable slot its value. Only
the contents of strings, and of scalars in slots that cannot be set, are left
out of the comparison. -/
theorem replaceVar_shape (g g' : Node) (x v : String) (hret : replaceVar g x v = some g') :
    shape .settable g' = shape .settable g :=
  shape_replaceVarRecursive x v g .settable (zero g) g' (Or.inl rfl) hret

/-- A record behind a pointer with a nil pointer, a nil interface, a sequence,
a map whose key holds the placeholder, and a number. -/
theorem replaceVar_shape_witness :
    shape .settable (.ptr (.struct false [(.exported, .nilPtr), (.exported, .nilIface),
        (.exported, .slice [.str "v", .other 7]),
        (.exported, .map [("((x))", .iface (.str "v"))]), (.exported, .other 3)]))
      = shape .settable (.ptr (.struct false [(.exported, .nilPtr), (.exported, .nilIface),
        (.exported, .slice [.str "((x))", .other 7]),
        (.exported, .map [("((x))", .iface (.str "((x))"))]), (.exported, .other 3)])) :=
  replaceVar_shape _ _ "x" "v" rfl

/-- C2, as stated, fails: a number under an unexported field of a record
without `DeepCopy` is not copied; the returned value has zero in its place. -/
theorem replaceVar_scalars_counterexample :
    replaceVar (.ptr (.struct false [(.exported, .str "n"), (.unexported, .other 5)])) "x" "v"
      = some (.ptr (.struct false [(.exported, .str "n"), (.unexported, .other 0)])) ∧
    (Node.ptr (.struct false [(.exported, .str "n"), (.unexported, .other 5)])).at
        [.elem, .field 1] = some (.other 5) ∧
    (Node.ptr (.struct false [(.exported, .str "n"), (.unexported, .other 0)])).at
        [.elem, .field 1] = some (.other 0) ∧
    (5 : Nat) ≠ 0 :=
  ⟨rfl, rfl, rfl, by decide⟩

/-- An entry of the accumulated list before the failing index is the secret
name that `variableSecret` derives for the variable at that index. -/
theorem accumulated_entry {σ : Type} (c : Collaborators σ) (dep : String) (vars : List String)
    (j n k : Nat) (w : String) (hk : k < j) (hj : j ≤ vars.length) (hw : vars[k]? = some w)
    (hok : ∃ p, variableSecret c dep w = .ok p) :
    ∃ nm key, variableSecret c dep w = .ok (nm, key) ∧
      ((vars.take j).map (secretNameOf c dep) ++ List.replicate n "")[k]? = some nm := by
  obtain ⟨⟨nm, key⟩, hp⟩ := hok
  refine ⟨nm, key, hp, ?_⟩
  rw [List.getElem?_append_left (by simp; omega)]
  simp [List.getElem?_map, List.getElem?_take, hk, hw, secretNameOf, hp]

/-- C7 fails on the code. With variables `a` and `b/c/d`, the secret of `a` is
fetched and `a` is resolved, then the malformed second name ends the run with
the empty list, not `["dep-var-a"]`, although the return for a failed secret
fetch a few lines below hands back `varSecrets`. With the one variable `a`,
which is resolved, a failing DNS construction ends the run with the nil list,
although the return for failed addons just before hands back `varSecrets`. -/
theorem secrets_dropped_on_error :
    (Manifest (sample (sampleInterpolator none "") ["a", "b/c/d"] false false)
        (sampleDeployment []) "ns").site = .separator 1 ∧
    Call.fetch (.implicitVar 0) .secret "ns" "dep-var-a" "value" ∈
      (Manifest (sample (sampleInterpolator none "") ["a", "b/c/d"] false false)
        (sampleDeployment []) "ns").calls ∧
    (Manifest (sample (sampleInterpolator none "") ["a", "b/c/d"] false false)
        (sampleDeployment []) "ns").err = some (separatorError 3) ∧
    (Manifest (sample (sampleInterpolator none "") ["a", "b/c/d"] false false)
        (sampleDeployment []) "ns").secrets = some [] ∧
    (ManifestDetailed (sample (sampleInterpolator none "") ["a", "b/c/d"] false false)
        (sampleDeployment []) "ns").secrets = some [] ∧
    (ManifestDetailed (sample (sampleInterpolator none "") ["a"] false true)
        (sampleDeployment []) "ns").site = .newDNS ∧
    Call.fetch (.implicitVar 0) .secret "ns" "dep-var-a" "value" ∈
      (ManifestDetailed (sample (sampleInterpolator none "") ["a"] false true)
        (sampleDeployment []) "ns").calls ∧
    (ManifestDetailed (sample (sampleInterpolator none "") ["a"] false true)
        (sampleDeployment []) "ns").err = some "no dns" ∧
    (ManifestDetailed (sample (sampleInterpolator none "") ["a"] false true)
        (sampleDeployment []) "ns").secrets = none ∧
    (Manifest (sample (sampleInterpolator none "") ["a"] false true)
        (sampleDeployment []) "ns").secrets = none ∧
    (Manifest (sample (sampleInterpolator none "") ["a", "b/c/d"] false false)
        (sampleDeployment []) "ns").secrets ≠ some ["dep-var-a"] ∧
    (ManifestDetailed (sample (sampleInterpolator none "") ["a"] false true)
        (sampleDeployment []) "ns").secrets ≠ some ["dep-var-a"] := by
  refine ⟨rfl, ?_, rfl, rfl, rfl, rfl, ?_, rfl, rfl, rfl, ?_, ?_⟩ <;> decide

/-- C8, as amended: in a run of either strategy whose variable number `i` has
two or more `/`, no manifest is returned and no secret fetch is issued for
that variable or a later one; the run ends with the separator error (for that
variable or an earlier malformed one) unless it already ended at an earlier
variable, by a failed secret fetch or a panic in the substitution. And a run
ends with the separator error only at a variable with two or more `/`. -/
theorem separator_failure {σ : Type} (c : Collaborators σ) (bdpl : BOSHDeployment)
    (ns : String) (run : Run)
    (hrun : run = Manifest c bdpl ns ∨ run = ManifestDetailed c bdpl ns) :
    (∀ (i : Nat) (v : String), run.vars[i]? = some v → 2 ≤ v.data.count '/' →
      run.manifest = none ∧
      (∀ k, i ≤ k → ∀ t n nm key, Call.fetch (.implicitVar k) t n nm key ∉ run.calls) ∧
      ((∃ j w n, j ≤ i ∧ run.site = .separator j ∧ run.vars[j]? = some w ∧
          2 ≤ w.data.count '/' ∧ run.secrets = some [] ∧
          run.err = some (separatorError n)) ∨
       (∃ j, j < i ∧ run.site = .secretFetch j) ∨
       run.site = .panicked)) ∧
    (∀ j, run.site = .separator j →
      ∃ w, run.vars[j]? = some w ∧ 2 ≤ w.data.count '/') := by
  obtain ⟨calls, hcalls, h⟩ := run_shape c bdpl ns run hrun
  rcases h with ⟨-, hvars, -, -, -, hs⟩ | ⟨hm, -, j, extra, -, hj, hrc, hearlier, h⟩ | ⟨hall, -, h⟩
  · constructor
    · intro i v hv
      simp [hvars] at hv
    · intro j hsite
      simp [hsite, Site.isEarly] at hs
  · constructor
    · intro i v hv hsl
      have hbad := variableSecret_of_two_le c bdpl.Name v hsl
      have hji : j ≤ i := by
        by_contra hlt
        obtain ⟨p, hp⟩ := hearlier i v (Nat.zero_le _) (by omega) hv
        rw [hbad] at hp
        simp at hp
      have hnofetch : ∀ hi, hi ≤ i → (∀ x ∈ extra, x.isVariableFetch 0 hi) →
          ∀ k, i ≤ k → ∀ t n nm key, Call.fetch (.implicitVar k) t n nm key ∉ run.calls := by
        intro hi hhi hex k hk t n nm key hmem
        rw [hrc] at hmem
        rcases List.mem_append.mp hmem with hmem | hmem
        · have := hcalls _ hmem
          simp [Call.forVariable] at this
        · have := hex _ hmem
          simp only [Call.isVariableFetch] at this
          omega
      rcases h with ⟨hs, hex, w, n, hw, hwbad, hsec, herr⟩ |
        ⟨hs, hex, w, bar, foo, e, hw, hwok, -⟩ | hpanic
      · exact ⟨hm, hnofetch j hji hex, Or.inl ⟨j, w, n, hji, hs, hw,
          (variableSecret_error c bdpl.Name w n hwbad).1, hsec, herr⟩⟩
      · have hne : j ≠ i := by
          rintro rfl
          rw [hv] at hw
          simp only [Option.some.injEq] at hw
          subst hw
          rw [hbad] at hwok
          simp at hwok
        exact ⟨hm, hnofetch (j + 1) (by omega) hex, Or.inr (Or.inl ⟨j, by omega, hs⟩)⟩
      · obtain ⟨hs, hex, ⟨w, p, hw, hwok⟩, -⟩ := hpanic
        have hne : j ≠ i := by
          rintro rfl
          rw [hv] at hw
          simp only [Option.some.injEq] at hw
          subst hw
          rw [hbad] at hwok
          simp at hwok
        exact ⟨hm, hnofetch (j + 1) (by omega) hex, Or.inr (Or.inr hs)⟩
    · intro j' hsite
      rcases h with ⟨hs, -, w, n, hw, hwbad, -⟩ | ⟨hs, -⟩ | ⟨hs, -⟩
      · simp only [hsite, Site.separator.injEq] at hs
        subst hs
        exact ⟨w, hw, (variableSecret_error c bdpl.Name w n hwbad).1⟩
      · simp [hsite] at hs
      · simp [hsite] at hs
  · constructor
    · intro i v hv hsl
      have hbad := variableSecret_of_two_le c bdpl.Name v hsl
      obtain ⟨p, hp⟩ := hall v (List.getElem?_mem hv)
      rw [hbad] at hp
      simp at hp
    · intro j hsite
      rcases h with ⟨hs, -⟩ | ⟨hs, -⟩ | ⟨hs, -⟩ | ⟨hs, -⟩ <;> simp [hsite] at hs

/-- Variables `a` and `b/c/d`: the run ends at the second, unfetched. -/
theorem separator_failure_witness :
    (ManifestDetailed (sample (sampleInterpolator none "") ["a", "b/c/d"] false false)
        (sampleDeployment ["o1"]) "ns").site = .separator 1 ∧
    (ManifestDetailed (sample (sampleInterpolator none "") ["a", "b/c/d"] false false)
        (sampleDeployment ["o1"]) "ns").manifest = none :=
  ⟨rfl, ((separator_failure (sample (sampleInterpolator none "") ["a", "b/c/d"] false false)
    (sampleDeployment ["o1"]) "ns" _ (Or.inr rfl)).1 1 "b/c/d" rfl (by decide)).1⟩

/-- C8, as stated, fails: with variables `b/c` and `x/y/z`, the second name
has two `/`, but the secret of `b` has no key `c`, so the run ends with the
error of that fetch and not with the separator error. -/
theorem separator_failure_counterexample :
    (Manifest (sample (sampleInterpolator none "") ["b/c", "x/y/z"] false false)
        (sampleDeployment []) "ns").vars = ["b/c", "x/y/z"] ∧
    2 ≤ "x/y/z".data.count '/' ∧
    (Manifest (sample (sampleInterpolator none "") ["b/c", "x/y/z"] false false)
        (sampleDeployment []) "ns").site = .secretFetch 0 ∧
    (Manifest (sample (sampleInterpolator none "") ["b/c", "x/y/z"] false false)
        (sampleDeployment []) "ns").err
      = some "failed to load secret for variable 'b/c': secret 'ns/dep-var-b' doesn't contain key c" ∧
    ∀ n, (Manifest (sample (sampleInterpolator none "") ["b/c", "x/y/z"] false false)
        (sampleDeployment []) "ns").err ≠ some (separatorError n) := by
  refine ⟨rfl, by decide, rfl, rfl, ?_⟩
  intro n h
  have herr : (Manifest (sample (sampleInterpolator none "") ["b/c", "x/y/z"] false false)
      (sampleDeployment []) "ns").err
      = some "failed to load secret for variable 'b/c': secret 'ns/dep-var-b' doesn't contain key c" :=
    rfl
  rw [herr] at h
  simp only [Option.some.injEq, separatorError] at h
  have h' := congrArg (fun t : String => t.data.head?) h
  simp [String.data_append] at h'

/-- C9 fails on the code: the name `a/b/c` has two `/`, and both strategies
report 3, the number of pieces, in the separator error. -/
theorem separator_count_reported :
    "a/b/c".data.count '/' = 2 ∧
    (Manifest (sample (sampleInterpolator none "") ["a/b/c"] false false)
        (sampleDeployment []) "ns").err
      = some "expected one / separator for implicit variable/key name, have 3" ∧
    (ManifestDetailed (sample (sampleInterpolator none "") ["a/b/c"] false false)
        (sampleDeployment []) "ns").err
      = some "expected one / separator for implicit variable/key name, have 3" :=
  ⟨by decide, rfl, rfl⟩

theorem isVariableFetch_kind (x : Call) (lo hi : Nat) (h : x.isVariableFetch lo hi) :
    x.onInterpolator = false ∧ x.isLoadYAML = false := by
  cases x <;> simp [Call.isVariableFetch, Call.onInterpolator, Call.isLoadYAML] at h ⊢

/-- The calls of a run are the calls made before the variable loop followed by
secret fetches of variables. -/
theorem runFrom_calls {σ : Type} (c : Collaborators σ) (bdpl : BOSHDeployment) (ns : String)
    (calls : List Call) (run : Run) (h : RunFrom c bdpl ns calls run) :
    ∃ extra, run.calls = calls ++ extra ∧
      ∀ x ∈ extra, x.onInterpolator = false ∧ x.isLoadYAML = false := by
  rcases h with ⟨hc, -⟩ | ⟨-, -, j, extra, -, -, hrc, -, h⟩ | ⟨-, ⟨extra, hrc, hex⟩, -⟩
  · exact ⟨[], by simp [hc], by simp⟩
  · refine ⟨extra, hrc, ?_⟩
    rcases h with ⟨-, hex, -⟩ | ⟨-, hex, -⟩ | ⟨-, hex, -⟩ <;>
      exact fun x hx => isVariableFetch_kind x _ _ (hex x hx)
  · exact ⟨extra, hrc, fun x hx => isVariableFetch_kind x _ _ (hex x hx)⟩

theorem filter_append_none (p : Call → Bool) (calls extra : List Call)
    (h : ∀ x ∈ extra, p x = false) : (calls ++ extra).filter p = calls.filter p := by
  have : extra.filter p = [] := by
    rw [List.filter_eq_nil_iff]
    intro x hx
    simp [h x hx]
  simp [List.filter_append, this]

theorem resolve_calls {σ : Type} (c : Collaborators σ) (bdpl : BOSHDeployment) (ns : String)
    (m bytes : String) (calls : List Call) :
    (resolve c bdpl ns m bytes calls).calls.filter Call.onInterpolator
      = calls.filter Call.onInterpolator ∧
    (resolve c bdpl ns m bytes calls).calls.filter Call.isLoadYAML
      = calls.filter Call.isLoadYAML ++ [.LoadYAML bytes] := by
  obtain ⟨extra, hrc, hex⟩ := runFrom_calls c bdpl ns _ _ (resolve_from c bdpl ns m bytes calls)
  rw [hrc]
  constructor
  · rw [filter_append_none _ _ _ (fun x hx => (hex x hx).1)]
    simp [List.filter_append, Call.onInterpolator]
  · rw [filter_append_none _ _ _ (fun x hx => (hex x hx).2)]
    simp [List.filter_append, Call.isLoadYAML]

theorem buildOpsLoop_calls {σ : Type} (c : Collaborators σ) (bdpl : BOSHDeployment)
    (ns : String) :
    ∀ (ops : List ResourceReference) (texts : List String) (i : Nat) (s0 s : σ)
      (calls : List Call),
      List.Forall₂ (fun op t => resourceData c.client ns op.RefType op.Name c.OpsSpecName = .ok t)
        ops texts →
      accumulate c.interpolator s0 texts = .ok s →
      ∃ calls', buildOpsLoop c bdpl ns ops i s0 calls = .ok (s, calls') ∧
        calls'.filter Call.onInterpolator
          = calls.filter Call.onInterpolator ++ texts.map (Call.BuildOps 0) ∧
        calls'.filter Call.isLoadYAML = calls.filter Call.isLoadYAML
  | [], texts, i, s0, s, calls, hf, hacc => by
    cases hf
    simp only [accumulate, Except.ok.injEq] at hacc
    subst hacc
    exact ⟨calls, rfl, by simp, rfl⟩
  | op :: ops, texts, i, s0, s, calls, hf, hacc => by
    cases hf with
    | cons hres hrest =>
      rename_i t ts
      simp only [accumulate] at hacc
      cases hb : c.interpolator.BuildOps s0 t with
      | error e => simp [hb] at hacc
      | ok s1 =>
        simp only [hb] at hacc
        obtain ⟨calls', h1, h2, h3⟩ := buildOpsLoop_calls c bdpl ns ops ts (i + 1) s1 s
          (calls ++ [.fetch (.ops i) op.RefType ns op.Name c.OpsSpecName, .BuildOps 0 t])
          hrest hacc
        refine ⟨calls', by simp only [buildOpsLoop, hres, hb, h1], ?_, ?_⟩
        · simp [h2, List.filter_append, Call.onInterpolator]
        · simp [h3, List.filter_append, Call.isLoadYAML]

/-- C4, as amended: in `Manifest`, when the fetches of the manifest and of all
ops texts succeed and every `BuildOps` call succeeds, the calls on
interpolators are `BuildOps` of each ops text in declared order on the one
instance and then, when there is at least one ops reference, one `Interpolate`
of the base manifest text; with no ops reference no interpolator is called and
the bytes parsed are the base manifest text. -/
theorem combined_interpolator_calls {σ : Type} (c : Collaborators σ) (bdpl : BOSHDeployment)
    (ns m : String) (texts : List String) (s : σ)
    (hm : resourceData c.client ns bdpl.Manifest.RefType bdpl.Manifest.Name c.ManifestSpecName
      = .ok m)
    (hops : List.Forall₂
      (fun op t => resourceData c.client ns op.RefType op.Name c.OpsSpecName = .ok t)
      bdpl.Ops texts)
    (hbuild : accumulate c.interpolator c.interpolator.fresh texts = .ok s) :
    (Manifest c bdpl ns).calls.filter Call.onInterpolator
      = texts.map (Call.BuildOps 0) ++ (if bdpl.Ops = [] then [] else [Call.Interpolate 0 m]) ∧
    (bdpl.Ops = [] →
      (Manifest c bdpl ns).calls.filter Call.onInterpolator = [] ∧
      (Manifest c bdpl ns).calls.filter Call.isLoadYAML = [Call.LoadYAML m]) := by
  obtain ⟨calls', h1, h2, h3⟩ := buildOpsLoop_calls c bdpl ns bdpl.Ops texts 0
    c.interpolator.fresh s
    [.fetch .manifest bdpl.Manifest.RefType ns bdpl.Manifest.Name c.ManifestSpecName] hops hbuild
  simp only [List.filter_cons, Call.onInterpolator, Call.isLoadYAML, List.filter_nil,
    List.nil_append] at h2 h3
  have hmain : (Manifest c bdpl ns).calls.filter Call.onInterpolator
      = texts.map (Call.BuildOps 0) ++ (if bdpl.Ops = [] then [] else [Call.Interpolate 0 m]) ∧
      (bdpl.Ops = [] → (Manifest c bdpl ns).calls.filter Call.isLoadYAML = [Call.LoadYAML m]) := by
    by_cases hnil : bdpl.Ops = []
    · have hlen : ¬ bdpl.Ops.length ≠ 0 := by simp [hnil]
      have hr : Manifest c bdpl ns = resolve c bdpl ns m m calls' := by
        simp only [Manifest, hm, h1, hlen, if_false]
      obtain ⟨r1, r2⟩ := resolve_calls c bdpl ns m m calls'
      rw [hr, r1, r2, h2, h3]
      simp [hnil]
    · have hlen : bdpl.Ops.length ≠ 0 := by
        simpa [List.length_eq_zero] using hnil
      refine ⟨?_, fun h => absurd h hnil⟩
      cases hi : c.interpolator.Interpolate s m with
      | error e =>
        have hr : Manifest c bdpl ns = failed (calls' ++ [.Interpolate 0 m]) .interpolate []
            (some []) (wrapf e ("Failed to interpolate " ++ c.goSyntax m ++
              " in interpolation task")) := by
          simp only [Manifest, hm, h1, hlen, if_true, hi, ne_eq, not_false_eq_true]
        rw [hr]
        simp [failed, List.filter_append, h2, Call.onInterpolator, hnil]
      | ok bytes =>
        have hr : Manifest c bdpl ns = resolve c bdpl ns m bytes (calls' ++ [.Interpolate 0 m]) := by
          simp only [Manifest, hm, h1, hlen, if_true, hi, ne_eq, not_false_eq_true]
        rw [hr, (resolve_calls c bdpl ns m bytes _).1]
        simp [List.filter_append, h2, Call.onInterpolator, hnil]
  refine ⟨hmain.1, fun hnil => ⟨?_, hmain.2 hnil⟩⟩
  rw [hmain.1]
  rw [hnil] at hops
  cases hops
  simp [hnil]

/-- Two ops references: two `BuildOps` calls in order, then one `Interpolate`. -/
theorem combined_interpolator_calls_witness :
    (Manifest (sample (sampleInterpolator none "") ["a"] false false)
        (sampleDeployment ["o1", "o2"]) "ns").calls.filter Call.onInterpolator
      = [Call.BuildOps 0 "patch o1;", Call.BuildOps 0 "patch o2;",
         Call.Interpolate 0 "name: ((instance_name))"] :=
  (combined_interpolator_calls (sample (sampleInterpolator none "") ["a"] false false)
    (sampleDeployment ["o1", "o2"]) "ns" "name: ((instance_name))"
    ["patch o1;", "patch o2;"] ["patch o1;", "patch o2;"] rfl
    (List.Forall₂.cons rfl (List.Forall₂.cons rfl List.Forall₂.nil)) rfl).1

/-- C4, as stated, fails: with two ops references whose fetches succeed and an
interpolator that refuses the first ops text, the only call on the
interpolator is the first `BuildOps`; the second `BuildOps` and the
`Interpolate` are never made. -/
theorem combined_interpolator_calls_counterexample :
    resourceData sampleClient "ns" .configMap "base" "manifest"
      = .ok "name: ((instance_name))" ∧
    resourceData sampleClient "ns" .configMap "o1" "ops" = .ok "patch o1;" ∧
    resourceData sampleClient "ns" .configMap "o2" "ops" = .ok "patch o2;" ∧
    (Manifest (sample (sampleInterpolator (some "patch o1;") "") [] false false)
        (sampleDeployment ["o1", "o2"]) "ns").calls.filter Call.onInterpolator
      = [Call.BuildOps 0 "patch o1;"] ∧
    (Manifest (sample (sampleInterpolator (some "patch o1;") "") [] false false)
        (sampleDeployment ["o1", "o2"]) "ns").site = .buildOps 0 ∧
    (Manifest (sample (sampleInterpolator (some "patch o1;") "") [] false false)
        (sampleDeployment ["o1", "o2"]) "ns").calls.filter Call.onInterpolator
      ≠ [Call.BuildOps 0 "patch o1;", Call.BuildOps 0 "patch o2;",
         Call.Interpolate 0 "name: ((instance_name))"] :=
  ⟨rfl, rfl, rfl, rfl, rfl, by decide⟩

theorem variablesLoop_forget {σ : Type} (c : Collaborators σ) (bdpl : BOSHDeployment)
    (ns : String) (vars : List String) :
    ∀ (rest : List String) (i : Nat) (m : Node) (vs : List String) (calls calls' : List Call),
      stripLoop (variablesLoop c bdpl ns vars rest i m vs calls)
        = stripLoop (variablesLoop c bdpl ns vars rest i m vs calls')
  | [], i, m, vs, calls, calls' => by simp [variablesLoop, stripLoop]
  | v :: rest, i, m, vs, calls, calls' => by
    simp only [variablesLoop]
    cases hsec : variableSecret c bdpl.Name v with
    | error n => simp [stripLoop, Run.forget, failed]
    | ok p =>
      obtain ⟨nm, key⟩ := p
      simp only []
      cases hres : resourceData c.client ns .secret nm key with
      | error e => simp [stripLoop, Run.forget, failed]
      | ok varData =>
        simp only []
        cases hrep : replaceVar m v varData with
        | none => simp [stripLoop, Run.forget, panicked]
        | some m1 =>
          simp only []
          exact variablesLoop_forget c bdpl ns vars rest (i + 1) m1 _ _ _

/-- What the shared tail returns does not depend on the calls made before. -/
theorem resolve_forget {σ : Type} (c : Collaborators σ) (bdpl : BOSHDeployment) (ns : String)
    (m bytes : String) (calls calls' : List Call) :
    (resolve c bdpl ns m bytes calls).forget = (resolve c bdpl ns m bytes calls').forget := by
  cases hload : c.LoadYAML bytes with
  | error e => simp [resolve, hload, Run.forget, failed]
  | ok manifest =>
    cases hvars : c.ImplicitVariables manifest with
    | error e => simp [resolve, hload, hvars, Run.forget, failed]
    | ok vars =>
      have hstrip := variablesLoop_forget c bdpl ns vars vars 0 manifest
        (List.replicate vars.length "") (calls ++ [.LoadYAML bytes]) (calls' ++ [.LoadYAML bytes])
      cases h1 : variablesLoop c bdpl ns vars vars 0 manifest (List.replicate vars.length "")
          (calls ++ [.LoadYAML bytes]) with
      | error r1 =>
        cases h2 : variablesLoop c bdpl ns vars vars 0 manifest (List.replicate vars.length "")
            (calls' ++ [.LoadYAML bytes]) with
        | error r2 =>
          simp only [h1, h2, stripLoop, Except.error.injEq] at hstrip
          simp only [resolve, hload, hvars, h1, h2, hstrip]
        | ok st2 =>
          obtain ⟨m2, vs2, c2⟩ := st2
          simp [h1, h2, stripLoop] at hstrip
      | ok st1 =>
        obtain ⟨m1, vs1, c1⟩ := st1
        cases h2 : variablesLoop c bdpl ns vars vars 0 manifest (List.replicate vars.length "")
            (calls' ++ [.LoadYAML bytes]) with
        | error r2 => simp [h1, h2, stripLoop] at hstrip
        | ok st2 =>
          obtain ⟨m2, vs2, c2⟩ := st2
          simp only [h1, h2, stripLoop, Except.ok.injEq, Prod.mk.injEq] at hstrip
          obtain ⟨rfl, rfl⟩ := hstrip
          simp only [resolve, hload, hvars, h1, h2]
          cases hadd : c.ApplyAddons m1 with
          | error e => simp [Run.forget, failed]
          | ok m' =>
            cases m' with
            | ptr target =>
              simp only []
              cases hdns : c.newDNSFunc bdpl.Name target with
              | error e => simp [Run.forget, failed]
              | ok dns => simp [Run.forget]
            | _ => simp [Run.forget, panicked]

/-- With an interpolator for which accumulating a patch and interpolating is
interpolating first and then applying the patch alone, the state that the
combined loop reaches interpolates the base text to the bytes that the
detailed loop reaches. -/
theorem loops_agree {σ : Type} (c : Collaborators σ) (bdpl : BOSHDeployment) (ns : String)
    (hlaw : ∀ s o s' t b r1 r, c.interpolator.BuildOps s o = .ok s' →
      c.interpolator.BuildOps c.interpolator.fresh o = .ok t →
      c.interpolator.Interpolate s b = .ok r1 → c.interpolator.Interpolate t r1 = .ok r →
      c.interpolator.Interpolate s' b = .ok r) :
    ∀ (ops : List ResourceReference) (i j : Nat) (s : σ) (b r1 : String) (calls calls' : List Call)
      (sF : σ) (callsF : List Call) (rF : String) (callsF' : List Call),
      c.interpolator.Interpolate s b = .ok r1 →
      buildOpsLoop c bdpl ns ops i s calls = .ok (sF, callsF) →
      interpolateEach c bdpl ns ops j r1 calls' = .ok (rF, callsF') →
      c.interpolator.Interpolate sF b = .ok rF
  | [], i, j, s, b, r1, calls, calls', sF, callsF, rF, callsF', hi, h1, h2 => by
    simp only [buildOpsLoop, Except.ok.injEq, Prod.mk.injEq] at h1
    simp only [interpolateEach, Except.ok.injEq, Prod.mk.injEq] at h2
    obtain ⟨rfl, -⟩ := h1
    obtain ⟨rfl, -⟩ := h2
    exact hi
  | op :: ops, i, j, s, b, r1, calls, calls', sF, callsF, rF, callsF', hi, h1, h2 => by
    simp only [buildOpsLoop] at h1
    simp only [interpolateEach] at h2
    cases hres : resourceData c.client ns op.RefType op.Name c.OpsSpecName with
    | error e => simp [hres] at h1
    | ok opsData =>
      simp only [hres] at h1 h2
      cases hb : c.interpolator.BuildOps s opsData with
      | error e => simp [hb] at h1
      | ok s' =>
        simp only [hb] at h1
        cases hb' : c.interpolator.BuildOps c.interpolator.fresh opsData with
        | error e => simp [hb'] at h2
        | ok t =>
          simp only [hb'] at h2
          cases hi' : c.interpolator.Interpolate t r1 with
          | error e => simp [hi'] at h2
          | ok r =>
            simp only [hi'] at h2
            exact loops_agree c bdpl ns hlaw ops (i + 1) (j + 1) s' b r _ _ sF callsF rF callsF'
              (hlaw s opsData s' t b r1 r hb hb' hi hi') h1 h2

theorem manifest_of_forget (r1 r2 : Run) (h : r1.forget = r2.forget) :
    r1.manifest = r2.manifest ∧ r1.secrets = r2.secrets := by
  cases r1
  cases r2
  simp only [Run.forget, Run.mk.injEq] at h
  simp [h]

theorem earlyFail_manifest (run : Run) (h : EarlyFail run) : run.manifest = none := by
  obtain ⟨calls, site, e, rfl, -⟩ := h
  rfl

/-- C3, as amended: for an interpolator for which accumulating a patch and
then interpolating gives what interpolating first and then applying that
patch alone with a fresh interpolator gives, when `Manifest` and
`ManifestDetailed` both return a manifest for the same request, namespace and
collaborators, the manifests are equal and so are the secret-name lists. -/
theorem strategies_agree {σ : Type} (c : Collaborators σ) (bdpl : BOSHDeployment) (ns : String)
    (hlaw : ∀ s o s' t b r1 r, c.interpolator.BuildOps s o = .ok s' →
      c.interpolator.BuildOps c.interpolator.fresh o = .ok t →
      c.interpolator.Interpolate s b = .ok r1 → c.interpolator.Interpolate t r1 = .ok r →
      c.interpolator.Interpolate s' b = .ok r)
    (m1 m2 : Node) (h1 : (Manifest c bdpl ns).manifest = some m1)
    (h2 : (ManifestDetailed c bdpl ns).manifest = some m2) :
    m1 = m2 ∧ (Manifest c bdpl ns).secrets = (ManifestDetailed c bdpl ns).secrets := by
  have key : (Manifest c bdpl ns).manifest = (ManifestDetailed c bdpl ns).manifest ∧
      (Manifest c bdpl ns).secrets = (ManifestDetailed c bdpl ns).secrets := by
    cases hres : resourceData c.client ns bdpl.Manifest.RefType bdpl.Manifest.Name
        c.ManifestSpecName with
    | error e => simp [Manifest, hres, failed] at h1
    | ok m =>
      have h0 : ∀ x ∈ [Call.fetch .manifest bdpl.Manifest.RefType ns bdpl.Manifest.Name
          c.ManifestSpecName], x.forVariable = false := by
        simp [Call.forVariable]
      cases hb : buildOpsLoop c bdpl ns bdpl.Ops 0 c.interpolator.fresh
          [.fetch .manifest bdpl.Manifest.RefType ns bdpl.Manifest.Name c.ManifestSpecName] with
      | error run =>
        have := earlyFail_manifest run ((buildOpsLoop_shape c bdpl ns bdpl.Ops 0 _ _ h0).1 run hb)
        simp [Manifest, hres, hb, this] at h1
      | ok st =>
        obtain ⟨sF, callsF⟩ := st
        cases hd : interpolateEach c bdpl ns bdpl.Ops 0 m
            [.fetch .manifest bdpl.Manifest.RefType ns bdpl.Manifest.Name c.ManifestSpecName] with
        | error run =>
          have := earlyFail_manifest run
            ((interpolateEach_shape c bdpl ns bdpl.Ops 0 _ _ h0).1 run hd)
          simp [ManifestDetailed, hres, hd, this] at h2
        | ok st' =>
          obtain ⟨rF, callsF'⟩ := st'
          have hD : ManifestDetailed c bdpl ns = resolve c bdpl ns m rF callsF' := by
            simp only [ManifestDetailed, hres, hd]
          cases hops : bdpl.Ops with
          | nil =>
            rw [hops] at hb hd
            simp only [interpolateEach, Except.ok.injEq, Prod.mk.injEq] at hd
            obtain ⟨rfl, -⟩ := hd
            simp only [buildOpsLoop, Except.ok.injEq, Prod.mk.injEq] at hb
            have hM : Manifest c bdpl ns = resolve c bdpl ns m m callsF := by
              simp [Manifest, hres, hops, buildOpsLoop, hb.2]
            rw [hM, hD]
            exact manifest_of_forget _ _ (resolve_forget c bdpl ns m m _ _)
          | cons op ops =>
            have hlen : bdpl.Ops.length ≠ 0 := by simp [hops]
            cases hi : c.interpolator.Interpolate sF m with
            | error e => simp [Manifest, hres, hb, hlen, hi, failed] at h1
            | ok bytes =>
              have hM : Manifest c bdpl ns
                  = resolve c bdpl ns m bytes (callsF ++ [.Interpolate 0 m]) := by
                simp only [Manifest, hres, hb, hlen, hi, if_true, ne_eq, not_false_eq_true]
              have hbytes : bytes = rF := by
                rw [hops] at hb hd
                simp only [buildOpsLoop] at hb
                simp only [interpolateEach] at hd
                cases hr : resourceData c.client ns op.RefType op.Name c.OpsSpecName with
                | error e => simp [hr] at hb
                | ok opsData =>
                  simp only [hr] at hb hd
                  cases hb1 : c.interpolator.BuildOps c.interpolator.fresh opsData with
                  | error e => simp [hb1] at hb
                  | ok s1 =>
                    simp only [hb1] at hb hd
                    cases hi1 : c.interpolator.Interpolate s1 m with
                    | error e => simp [hi1] at hd
                    | ok r =>
                      simp only [hi1] at hd
                      have := loops_agree c bdpl ns hlaw ops 1 1 s1 m r _ _ sF callsF rF callsF'
                        hi1 hb hd
                      rw [hi] at this
                      simpa using this
              subst hbytes
              rw [hM, hD]
              exact manifest_of_forget _ _ (resolve_forget c bdpl ns m bytes _ _)
  refine ⟨?_, key.2⟩
  rw [key.1, h2] at h1
  simpa using h1.symm

/-- Two ops references and the interpolator that appends the kept ops texts:
both strategies return the same manifest. -/
theorem strategies_agree_witness :
    (Manifest (sample (sampleInterpolator none "") ["instance_name"] false false)
        (sampleDeployment ["o1", "o2"]) "ns").manifest
      = some (.ptr (.struct false [(.exported, .str "name: worker-1patch o1;patch o2;")])) ∧
    (Manifest (sample (sampleInterpolator none "") ["instance_name"] false false)
        (sampleDeployment ["o1", "o2"]) "ns").secrets
      = (ManifestDetailed (sample (sampleInterpolator none "") ["instance_name"] false false)
        (sampleDeployment ["o1", "o2"]) "ns").secrets :=
  ⟨rfl, (strategies_agree (sample (sampleInterpolator none "") ["instance_name"] false false)
    (sampleDeployment ["o1", "o2"]) "ns"
    (by
      intro s o s' t b r1 r hb hb' hi hi'
      simp only [sample, sampleInterpolator, reduceCtorEq, if_false, Except.ok.injEq] at hb hb' hi hi' ⊢
      subst hb hb' hi hi'
      simp [String.join, String.append_assoc])
    _ _ rfl rfl).2⟩

/-- C3, as stated, fails: an interpolator that appends the kept ops texts and
then the stamp `!` is deterministic, and with two ops references both
strategies succeed, but the combined one stamps once and the detailed one
twice, so the manifests differ. -/
theorem strategies_agree_counterexample :
    (Manifest (sample (sampleInterpolator none "!") [] false false)
        (sampleDeployment ["o1", "o2"]) "ns").manifest
      = some (.ptr (.struct false
          [(.exported, .str "name: ((instance_name))patch o1;patch o2;!")])) ∧
    (ManifestDetailed (sample (sampleInterpolator none "!") [] false false)
        (sampleDeployment ["o1", "o2"]) "ns").manifest
      = some (.ptr (.struct false
          [(.exported, .str "name: ((instance_name))patch o1;!patch o2;!")])) ∧
    (Manifest (sample (sampleInterpolator none "!") [] false false)
        (sampleDeployment ["o1", "o2"]) "ns").err = none ∧
    (ManifestDetailed (sample (sampleInterpolator none "!") [] false false)
        (sampleDeployment ["o1", "o2"]) "ns").err = none ∧
    "name: ((instance_name))patch o1;patch o2;!" ≠ "name: ((instance_name))patch o1;!patch o2;!" :=
  ⟨rfl, rfl, rfl, rfl, by decide⟩

/-! ## From the collaborators to the outcome of a run -/

theorem buildOpsLoop_inv {σ : Type} (c : Collaborators σ) (bdpl : BOSHDeployment) (ns : String) :
    ∀ (ops : List ResourceReference) (i : Nat) (s0 s : σ) (calls calls' : List Call),
      buildOpsLoop c bdpl ns ops i s0 calls = .ok (s, calls') →
      ∃ texts, List.Forall₂
          (fun op t => resourceData c.client ns op.RefType op.Name c.OpsSpecName = .ok t)
          ops texts ∧
        accumulate c.interpolator s0 texts = .ok s
  | [], i, s0, s, calls, calls', h => by
    simp only [buildOpsLoop, Except.ok.injEq, Prod.mk.injEq] at h
    obtain ⟨rfl, -⟩ := h
    exact ⟨[], List.Forall₂.nil, rfl⟩
  | op :: ops, i, s0, s, calls, calls', h => by
    simp only [buildOpsLoop] at h
    cases hres : resourceData c.client ns op.RefType op.Name c.OpsSpecName with
    | error e => simp [hres] at h
    | ok t =>
      simp only [hres] at h
      cases hb : c.interpolator.BuildOps s0 t with
      | error e => simp [hb] at h
      | ok s1 =>
        simp only [hb] at h
        obtain ⟨ts, hf, hacc⟩ := buildOpsLoop_inv c bdpl ns ops (i + 1) s1 s _ calls' h
        exact ⟨t :: ts, List.Forall₂.cons hres hf, by simp [accumulate, hb, hacc]⟩

theorem interpolateEach_fwd {σ : Type} (c : Collaborators σ) (bdpl : BOSHDeployment)
    (ns : String) :
    ∀ (ops : List ResourceReference) (texts : List String) (i : Nat) (b bytes : String)
      (calls : List Call),
      List.Forall₂ (fun op t => resourceData c.client ns op.RefType op.Name c.OpsSpecName = .ok t)
        ops texts →
      interpolateDetailed c.interpolator b texts = .ok bytes →
      ∃ calls', interpolateEach c bdpl ns ops i b calls = .ok (bytes, calls')
  | [], texts, i, b, bytes, calls, hf, h => by
    cases hf
    simp only [interpolateDetailed, Except.ok.injEq] at h
    subst h
    exact ⟨calls, rfl⟩
  | op :: ops, texts, i, b, bytes, calls, hf, h => by
    cases hf with
    | cons hres hrest =>
      rename_i t ts
      simp only [interpolateDetailed] at h
      cases hb : c.interpolator.BuildOps c.interpolator.fresh t with
      | error e => simp [hb] at h
      | ok s1 =>
        simp only [hb] at h
        cases hi : c.interpolator.Interpolate s1 b with
        | error e => simp [hi] at h
        | ok b1 =>
          simp only [hi] at h
          obtain ⟨calls', hc⟩ := interpolateEach_fwd c bdpl ns ops ts (i + 1) b1 bytes
            (calls ++ [.fetch (.ops i) op.RefType ns op.Name c.OpsSpecName,
              .BuildOps i t, .Interpolate i b]) hrest h
          exact ⟨calls', by simp only [interpolateEach, hres, hb, hi, hc]⟩

theorem interpolateEach_inv {σ : Type} (c : Collaborators σ) (bdpl : BOSHDeployment)
    (ns : String) :
    ∀ (ops : List ResourceReference) (i : Nat) (b bytes : String) (calls calls' : List Call),
      interpolateEach c bdpl ns ops i b calls = .ok (bytes, calls') →
      ∃ texts, List.Forall₂
          (fun op t => resourceData c.client ns op.RefType op.Name c.OpsSpecName = .ok t)
          ops texts ∧
        interpolateDetailed c.interpolator b texts = .ok bytes
  | [], i, b, bytes, calls, calls', h => by
    simp only [interpolateEach, Except.ok.injEq, Prod.mk.injEq] at h
    obtain ⟨rfl, -⟩ := h
    exact ⟨[], List.Forall₂.nil, rfl⟩
  | op :: ops, i, b, bytes, calls, calls', h => by
    simp only [interpolateEach] at h
    cases hres : resourceData c.client ns op.RefType op.Name c.OpsSpecName with
    | error e => simp [hres] at h
    | ok t =>
      simp only [hres] at h
      cases hb : c.interpolator.BuildOps c.interpolator.fresh t with
      | error e => simp [hb] at h
      | ok s1 =>
        simp only [hb] at h
        cases hi : c.interpolator.Interpolate s1 b with
        | error e => simp [hi] at h
        | ok b1 =>
          simp only [hi] at h
          obtain ⟨ts, hf, hd⟩ := interpolateEach_inv c bdpl ns ops (i + 1) b1 bytes _ calls' h
          exact ⟨t :: ts, List.Forall₂.cons hres hf, by simp [interpolateDetailed, hb, hi, hd]⟩

/-- When the collaborators let the strategy reach the parser, its run is the
shared tail on the patched bytes. -/
theorem execute_of_patched {σ : Type} (s : Strategy) (c : Collaborators σ)
    (bdpl : BOSHDeployment) (ns m bytes : String) (hp : Patched s c bdpl ns m bytes) :
    ∃ calls, execute s c bdpl ns = resolve c bdpl ns m bytes calls := by
  obtain ⟨hm, texts, hf, hs⟩ := hp
  cases s with
  | combined =>
    simp only at hs
    rcases hs with ⟨rfl, rfl⟩ | ⟨hne, st, hacc, hi⟩
    · cases hops : bdpl.Ops with
      | nil =>
        exact ⟨[.fetch .manifest bdpl.Manifest.RefType ns bdpl.Manifest.Name
          c.ManifestSpecName], by simp [execute, Manifest, hm, hops, buildOpsLoop]⟩
      | cons op ops =>
        rw [hops] at hf
        cases hf
    · obtain ⟨calls', h1, -, -⟩ := buildOpsLoop_calls c bdpl ns bdpl.Ops texts 0
        c.interpolator.fresh st
        [.fetch .manifest bdpl.Manifest.RefType ns bdpl.Manifest.Name c.ManifestSpecName] hf hacc
      have hlen : bdpl.Ops.length ≠ 0 := by
        intro h0
        have := List.length_eq_zero.mp h0
        rw [this] at hf
        cases hf
        exact hne rfl
      exact ⟨calls' ++ [.Interpolate 0 m], by
        simp only [execute, Manifest, hm, h1, hlen, hi, if_true, ne_eq, not_false_eq_true]⟩
  | detailed =>
    simp only at hs
    obtain ⟨calls', hc⟩ := interpolateEach_fwd c bdpl ns bdpl.Ops texts 0 m bytes
      [.fetch .manifest bdpl.Manifest.RefType ns bdpl.Manifest.Name c.ManifestSpecName] hf hs
    exact ⟨calls', by simp only [execute, ManifestDetailed, hm, hc]⟩

/-- A run that returns a manifest got through to the parser. -/
theorem patched_of_success {σ : Type} (s : Strategy) (c : Collaborators σ)
    (bdpl : BOSHDeployment) (ns : String) (m' : Node)
    (h : (execute s c bdpl ns).manifest = some m') :
    ∃ m bytes calls, Patched s c bdpl ns m bytes ∧
      execute s c bdpl ns = resolve c bdpl ns m bytes calls := by
  have h0 : ∀ x ∈ [Call.fetch .manifest bdpl.Manifest.RefType ns bdpl.Manifest.Name
      c.ManifestSpecName], x.forVariable = false := by
    simp [Call.forVariable]
  cases hres : resourceData c.client ns bdpl.Manifest.RefType bdpl.Manifest.Name
      c.ManifestSpecName with
  | error e => cases s <;> simp [execute, Manifest, ManifestDetailed, hres, failed] at h
  | ok m =>
    cases s with
    | combined =>
      cases hb : buildOpsLoop c bdpl ns bdpl.Ops 0 c.interpolator.fresh
          [.fetch .manifest bdpl.Manifest.RefType ns bdpl.Manifest.Name c.ManifestSpecName] with
      | error run =>
        have := earlyFail_manifest run ((buildOpsLoop_shape c bdpl ns bdpl.Ops 0 _ _ h0).1 run hb)
        simp [execute, Manifest, hres, hb, this] at h
      | ok st =>
        obtain ⟨sF, callsF⟩ := st
        obtain ⟨texts, hf, hacc⟩ := buildOpsLoop_inv c bdpl ns bdpl.Ops 0 _ sF _ callsF hb
        by_cases hlen : bdpl.Ops.length ≠ 0
        · cases hi : c.interpolator.Interpolate sF m with
          | error e => simp [execute, Manifest, hres, hb, hlen, hi, failed] at h
          | ok bytes =>
            have hne : texts ≠ [] := by
              rintro rfl
              have := hf.length_eq
              simp at this
              exact hlen (by simp [this])
            exact ⟨m, bytes, callsF ++ [.Interpolate 0 m],
              ⟨hres, texts, hf, Or.inr ⟨hne, sF, hacc, hi⟩⟩, by
                simp only [execute, Manifest, hres, hb, hlen, hi, if_true, ne_eq,
                  not_false_eq_true]⟩
        · have hnil : texts = [] := by
            have h0' : bdpl.Ops = [] := List.length_eq_zero.mp (by simpa using hlen)
            rw [h0'] at hf
            cases hf
            rfl
          exact ⟨m, m, callsF, ⟨hres, texts, hf, Or.inl ⟨hnil, rfl⟩⟩, by
            simp only [execute, Manifest, hres, hb, hlen, if_false]⟩
    | detailed =>
      cases hd : interpolateEach c bdpl ns bdpl.Ops 0 m
          [.fetch .manifest bdpl.Manifest.RefType ns bdpl.Manifest.Name c.ManifestSpecName] with
      | error run =>
        have := earlyFail_manifest run
          ((interpolateEach_shape c bdpl ns bdpl.Ops 0 _ _ h0).1 run hd)
        simp [execute, ManifestDetailed, hres, hd, this] at h
      | ok st =>
        obtain ⟨rF, callsF⟩ := st
        obtain ⟨texts, hf, hdet⟩ := interpolateEach_inv c bdpl ns bdpl.Ops 0 m rF _ callsF hd
        exact ⟨m, rF, callsF, ⟨hres, texts, hf, hdet⟩, by
          simp only [execute, ManifestDetailed, hres, hd]⟩

theorem substituteAll_wellFormed {σ : Type} (c : Collaborators σ) (dep ns : String) :
    ∀ (pre : List String) (m mi : Node), substituteAll c dep ns m pre = some mi →
      ∀ w ∈ pre, ∃ p, variableSecret c dep w = .ok p
  | [], _, _, _ => by simp
  | v :: pre, m, mi, h => by
    simp only [substituteAll] at h
    cases hsec : variableSecret c dep v with
    | error n => simp [hsec] at h
    | ok p =>
      obtain ⟨nm, key⟩ := p
      simp only [hsec] at h
      cases hres : resourceData c.client ns .secret nm key with
      | error e => simp [hres] at h
      | ok d =>
        simp only [hres] at h
        cases hrep : replaceVar m v d with
        | none => simp [hrep] at h
        | some m1 =>
          simp only [hrep] at h
          intro w hw
          rcases List.mem_cons.mp hw with rfl | hw
          · exact ⟨_, hsec⟩
          · exact substituteAll_wellFormed c dep ns pre m1 mi h w hw

/-- The loop runs through a stretch of variables that resolve, and goes on
from the manifest they give with their names filled in. -/
theorem variablesLoop_prefix {σ : Type} (c : Collaborators σ) (bdpl : BOSHDeployment)
    (ns : String) (vars : List String) :
    ∀ (pre rest done : List String) (m mi : Node) (calls : List Call),
      substituteAll c bdpl.Name ns m pre = some mi →
      ∃ calls', variablesLoop c bdpl ns vars (pre ++ rest) done.length m
          (done.map (secretNameOf c bdpl.Name) ++ List.replicate (pre ++ rest).length "") calls
        = variablesLoop c bdpl ns vars rest (done ++ pre).length mi
          ((done ++ pre).map (secretNameOf c bdpl.Name) ++ List.replicate rest.length "") calls'
  | [], rest, done, m, mi, calls, h => by
    simp only [substituteAll, Option.some.injEq] at h
    subst h
    exact ⟨calls, by simp⟩
  | w :: pre, rest, done, m, mi, calls, h => by
    simp only [substituteAll] at h
    cases hsec : variableSecret c bdpl.Name w with
    | error n => simp [hsec] at h
    | ok p =>
      obtain ⟨nm, key⟩ := p
      simp only [hsec] at h
      cases hres : resourceData c.client ns .secret nm key with
      | error e => simp [hres] at h
      | ok d =>
        simp only [hres] at h
        cases hrep : replaceVar m w d with
        | none => simp [hrep] at h
        | some m1 =>
          simp only [hrep] at h
          have hnm := secretNameOf_ok c bdpl.Name w nm key hsec
          obtain ⟨calls', ih⟩ := variablesLoop_prefix c bdpl ns vars pre rest (done ++ [w]) m1 mi
            (calls ++ [.fetch (.implicitVar done.length) .secret ns nm key]) h
          refine ⟨calls', ?_⟩
          have e : done ++ w :: pre = (done ++ [w]) ++ pre := by simp
          rw [e, ← ih]
          simp only [List.cons_append, variablesLoop, hsec, hres, hrep, List.length_cons,
            List.length_append, List.length_singleton, List.map_append, List.map_cons,
            List.map_nil, hnm]
          rw [set_at_length _ _ _ _ (by simp)]
          simp

/-- The shared tail, when every variable resolves and the addons and the DNS
construction go through: the manifest with the update block applied, the names
of all variables, no error. -/
theorem resolve_success {σ : Type} (c : Collaborators σ) (bdpl : BOSHDeployment) (ns : String)
    (m bytes : String) (calls : List Call) (manifest mF target : Node) (vars : List String)
    (dns : String → String)
    (hload : c.LoadYAML bytes = .ok manifest) (hvars : c.ImplicitVariables manifest = .ok vars)
    (hsub : substituteAll c bdpl.Name ns manifest vars = some mF)
    (hadd : c.ApplyAddons mF = .ok (.ptr target))
    (hdns : c.newDNSFunc bdpl.Name target = .ok dns) :
    (resolve c bdpl ns m bytes calls).manifest = some (c.ApplyUpdateBlock (.ptr target) dns) ∧
    (resolve c bdpl ns m bytes calls).secrets = some (vars.map (secretNameOf c bdpl.Name)) ∧
    (resolve c bdpl ns m bytes calls).err = none := by
  obtain ⟨calls', hl⟩ := variablesLoop_prefix c bdpl ns vars vars [] [] manifest mF
    (calls ++ [.LoadYAML bytes]) hsub
  simp only [List.append_nil, List.length_nil, List.map_nil, List.nil_append, variablesLoop,
    List.replicate_zero] at hl
  simp [resolve, hload, hvars, hl, hadd, hdns]

/-- The shared tail, when every variable resolves and the addons fail. -/
theorem resolve_addons_failure {σ : Type} (c : Collaborators σ) (bdpl : BOSHDeployment)
    (ns : String) (m bytes : String) (calls : List Call) (manifest mF : Node)
    (vars : List String) (e : String)
    (hload : c.LoadYAML bytes = .ok manifest) (hvars : c.ImplicitVariables manifest = .ok vars)
    (hsub : substituteAll c bdpl.Name ns manifest vars = some mF)
    (hadd : c.ApplyAddons mF = .error e) :
    (resolve c bdpl ns m bytes calls).manifest = none ∧
    (resolve c bdpl ns m bytes calls).secrets = some (vars.map (secretNameOf c bdpl.Name)) ∧
    (resolve c bdpl ns m bytes calls).err = some (wrapf e "failed to apply addons") := by
  obtain ⟨calls', hl⟩ := variablesLoop_prefix c bdpl ns vars vars [] [] manifest mF
    (calls ++ [.LoadYAML bytes]) hsub
  simp only [List.append_nil, List.length_nil, List.map_nil, List.nil_append, variablesLoop,
    List.replicate_zero] at hl
  simp [resolve, hload, hvars, hl, hadd, failed]

/-- The shared tail, when the variables before number `i` resolve and the
secret fetch of number `i` fails. -/
theorem resolve_fetch_failure {σ : Type} (c : Collaborators σ) (bdpl : BOSHDeployment)
    (ns : String) (m bytes : String) (calls : List Call) (manifest mi : Node)
    (vars : List String) (i : Nat) (v bar foo e : String)
    (hload : c.LoadYAML bytes = .ok manifest) (hvars : c.ImplicitVariables manifest = .ok vars)
    (hv : vars[i]? = some v)
    (hbefore : substituteAll c bdpl.Name ns manifest (vars.take i) = some mi)
    (href : variableSecret c bdpl.Name v = .ok (bar, foo))
    (hres : resourceData c.client ns .secret bar foo = .error e) :
    (resolve c bdpl ns m bytes calls).manifest = none ∧
    (resolve c bdpl ns m bytes calls).secrets
      = some ((vars.take i).map (secretNameOf c bdpl.Name) ++
          List.replicate (vars.length - i) "") ∧
    (resolve c bdpl ns m bytes calls).err
      = some (wrapf e ("failed to load secret for variable '" ++ v ++ "'")) := by
  have hi : i < vars.length := by
    by_contra hge
    rw [List.getElem?_eq_none (by omega)] at hv
    simp at hv
  have hdrop : vars.drop i = v :: vars.drop (i + 1) := by
    rw [List.drop_eq_getElem_cons hi]
    congr 1
    have := List.getElem?_eq_getElem hi
    rw [this] at hv
    simpa using hv
  have hsplit : vars = vars.take i ++ v :: vars.drop (i + 1) := by
    rw [← hdrop, List.take_append_drop]
  obtain ⟨calls', hl⟩ := variablesLoop_prefix c bdpl ns vars (vars.take i)
    (v :: vars.drop (i + 1)) [] manifest mi (calls ++ [.LoadYAML bytes]) hbefore
  rw [← hsplit] at hl
  simp only [List.length_nil, List.map_nil, List.nil_append, variablesLoop, href, hres,
    List.length_cons, List.length_drop] at hl
  have hlen : vars.length - (i + 1) + 1 = vars.length - i := by omega
  simp [resolve, hload, hvars, hl, failed, hlen]

/-- The shared tail, when it returns a manifest: the bytes were parsed, the
variables listed, every one of them named, and the list holds their names. -/
theorem resolve_success_inv {σ : Type} (c : Collaborators σ) (bdpl : BOSHDeployment)
    (ns : String) (m bytes : String) (calls : List Call) (m' : Node)
    (h : (resolve c bdpl ns m bytes calls).manifest = some m') :
    ∃ manifest vars, c.LoadYAML bytes = .ok manifest ∧
      c.ImplicitVariables manifest = .ok vars ∧
      (∀ v ∈ vars, ∃ p, variableSecret c bdpl.Name v = .ok p) ∧
      (resolve c bdpl ns m bytes calls).secrets = some (vars.map (secretNameOf c bdpl.Name)) ∧
      (resolve c bdpl ns m bytes calls).err = none := by
  cases hload : c.LoadYAML bytes with
  | error e => simp [resolve, hload, failed] at h
  | ok manifest =>
    cases hvars : c.ImplicitVariables manifest with
    | error e => simp [resolve, hload, hvars, failed] at h
    | ok vars =>
      refine ⟨manifest, vars, rfl, hvars, ?_⟩
      cases hloop : variablesLoop c bdpl ns vars vars 0 manifest
          (List.replicate vars.length "") (calls ++ [.LoadYAML bytes]) with
      | error run =>
        have hx := variablesLoop_error c bdpl ns vars vars [] manifest
          (calls ++ [.LoadYAML bytes]) run (by simp) (by simpa using hloop)
        have hr : resolve c bdpl ns m bytes calls = run := by
          simp only [resolve, hload, hvars, hloop]
        rw [hr, hx.1] at h
        simp at h
      | ok st =>
        obtain ⟨m1, vs1, calls1⟩ := st
        obtain ⟨h1, h2, -⟩ := variablesLoop_ok c bdpl ns vars vars [] manifest
          (calls ++ [.LoadYAML bytes]) m1 vs1 calls1 (by simp) (by simpa using hloop)
        subst h1
        cases hadd : c.ApplyAddons m1 with
        | error e => simp [resolve, hload, hvars, hloop, hadd, failed] at h
        | ok m2 =>
          cases m2 with
          | ptr target =>
            cases hdns : c.newDNSFunc bdpl.Name target with
            | error e => simp [resolve, hload, hvars, hloop, hadd, hdns, failed] at h
            | ok dns => exact ⟨h2, by simp [resolve, hload, hvars, hloop, hadd, hdns]⟩
          | _ => simp [resolve, hload, hvars, hloop, hadd, panicked] at h

theorem derivedNames_map {σ : Type} (c : Collaborators σ) (dep : String) (vars : List String) :
    DerivedNames c dep vars (vars.map (secretNameOf c dep)) := by
  refine ⟨by simp, ?_, ?_, ?_⟩
  · intro i v hv hplain
    simp [List.getElem?_map, hv, secretNameOf, variableSecret_plain c dep v hplain]
  · intro i base sub hv hb hs
    simp [List.getElem?_map, hv, secretNameOf, variableSecret_pair c dep base sub hb hs]
  · intro hnil
    simp [hnil]

/-- C5: for both strategies. When the collaborators let every step go through
(manifest and ops fetched and patched to `bytes`, `bytes` parsed, the parsed
manifest listing the implicit variables `vars`, every variable resolved,
addons and DNS construction succeeding), the run returns a manifest, no error,
and a secret-name list with one entry per variable of `vars`, in enumeration
order: for a variable without `/` the deployment secret name of the variable,
for `base/subKey` the deployment secret name of `base`, and the empty list
when there are no variables. And every run that returns a manifest is such a
run: it returns no error, and its list holds the derived names of the
variables that the parsed manifest lists. -/
theorem secret_names_on_success {σ : Type} (s : Strategy) (c : Collaborators σ)
    (bdpl : BOSHDeployment) (ns : String) :
    (∀ (m bytes : String) (manifest mF target : Node) (vars : List String)
        (dns : String → String),
      Patched s c bdpl ns m bytes → c.LoadYAML bytes = .ok manifest →
      c.ImplicitVariables manifest = .ok vars →
      substituteAll c bdpl.Name ns manifest vars = some mF →
      c.ApplyAddons mF = .ok (.ptr target) → c.newDNSFunc bdpl.Name target = .ok dns →
      (execute s c bdpl ns).manifest = some (c.ApplyUpdateBlock (.ptr target) dns) ∧
      (execute s c bdpl ns).err = none ∧
      ∃ names, (execute s c bdpl ns).secrets = some names ∧
        DerivedNames c bdpl.Name vars names) ∧
    (∀ m', (execute s c bdpl ns).manifest = some m' →
      (execute s c bdpl ns).err = none ∧
      ∃ m bytes manifest vars names, Patched s c bdpl ns m bytes ∧
        c.LoadYAML bytes = .ok manifest ∧ c.ImplicitVariables manifest = .ok vars ∧
        (execute s c bdpl ns).secrets = some names ∧ DerivedNames c bdpl.Name vars names) := by
  constructor
  · intro m bytes manifest mF target vars dns hp hload hvars hsub hadd hdns
    obtain ⟨calls, hx⟩ := execute_of_patched s c bdpl ns m bytes hp
    obtain ⟨h1, h2, h3⟩ := resolve_success c bdpl ns m bytes calls manifest mF target vars dns
      hload hvars hsub hadd hdns
    rw [hx]
    exact ⟨h1, h3, _, h2, derivedNames_map c bdpl.Name vars⟩
  · intro m' hok
    obtain ⟨m, bytes, calls, hp, hx⟩ := patched_of_success s c bdpl ns m' hok
    rw [hx] at hok ⊢
    obtain ⟨manifest, vars, hload, hvars, -, hsec, herr⟩ :=
      resolve_success_inv c bdpl ns m bytes calls m' hok
    exact ⟨herr, m, bytes, manifest, vars, _, hp, hload, hvars, hsec,
      derivedNames_map c bdpl.Name vars⟩

/-- The spec example under both strategies: variable `instance_name` of
deployment `dep`, with one ops file, gives the manifest with `worker-1` in it
and the secret list `["dep-var-instance-name"]`. -/
theorem secret_names_on_success_witness :
    ((execute .combined (sample (sampleInterpolator none "") ["instance_name"] false false)
        (sampleDeployment ["o1"]) "ns").manifest
      = some (.ptr (.struct false [(.exported, .str "name: worker-1patch o1;")])) ∧
     (execute .combined (sample (sampleInterpolator none "") ["instance_name"] false false)
        (sampleDeployment ["o1"]) "ns").secrets = some ["dep-var-instance-name"]) ∧
    ((execute .detailed (sample (sampleInterpolator none "") ["instance_name"] false false)
        (sampleDeployment ["o1"]) "ns").manifest
      = some (.ptr (.struct false [(.exported, .str "name: worker-1patch o1;")])) ∧
     (execute .detailed (sample (sampleInterpolator none "") ["instance_name"] false false)
        (sampleDeployment ["o1"]) "ns").secrets = some ["dep-var-instance-name"]) :=
  ⟨⟨((secret_names_on_success .combined
        (sample (sampleInterpolator none "") ["instance_name"] false false)
        (sampleDeployment ["o1"]) "ns").1
      "name: ((instance_name))" "name: ((instance_name))patch o1;"
      (.ptr (.struct false [(.exported, .str "name: ((instance_name))patch o1;")]))
      (.ptr (.struct false [(.exported, .str "name: worker-1patch o1;")]))
      (.struct false [(.exported, .str "name: worker-1patch o1;")])
      ["instance_name"] id
      ⟨rfl, ["patch o1;"], List.Forall₂.cons rfl List.Forall₂.nil,
        Or.inr ⟨List.cons_ne_nil _ _, ["patch o1;"], rfl, rfl⟩⟩
      rfl rfl rfl rfl rfl).1, rfl⟩,
   ⟨((secret_names_on_success .detailed
        (sample (sampleInterpolator none "") ["instance_name"] false false)
        (sampleDeployment ["o1"]) "ns").1
      "name: ((instance_name))" "name: ((instance_name))patch o1;"
      (.ptr (.struct false [(.exported, .str "name: ((instance_name))patch o1;")]))
      (.ptr (.struct false [(.exported, .str "name: worker-1patch o1;")]))
      (.struct false [(.exported, .str "name: worker-1patch o1;")])
      ["instance_name"] id
      ⟨rfl, ["patch o1;"], List.Forall₂.cons rfl List.Forall₂.nil, rfl⟩
      rfl rfl rfl rfl rfl).1, rfl⟩⟩

/-- C6: for both strategies. When the collaborators let the run reach the
secret fetch of the variable number `i` (manifest and ops fetched and patched,
the bytes parsed, the variables listed, the variables before `i` resolved) and
that fetch fails because key `foo` is missing from secret `bar` in namespace
`ns`, the run returns no manifest, an error whose message names `ns`, `bar`
and `foo`, and a list that holds, at the index of each variable before `i`,
the derived secret name of that variable. -/
theorem missing_key_failure {σ : Type} (s : Strategy) (c : Collaborators σ)
    (bdpl : BOSHDeployment) (ns m bytes : String) (manifest mi : Node) (vars : List String)
    (i : Nat) (v bar foo : String) (data : List (String × String))
    (hp : Patched s c bdpl ns m bytes) (hload : c.LoadYAML bytes = .ok manifest)
    (hvars : c.ImplicitVariables manifest = .ok vars) (hv : vars[i]? = some v)
    (hbefore : substituteAll c bdpl.Name ns manifest (vars.take i) = some mi)
    (href : variableSecret c bdpl.Name v = .ok (bar, foo))
    (hget : c.client.getSecret ns bar = .ok data) (hmiss : data.lookup foo = none) :
    (execute s c bdpl ns).manifest = none ∧
    (execute s c bdpl ns).err
      = some ("failed to load secret for variable '" ++ v ++ "': secret '" ++ ns ++ "/" ++
        bar ++ "' doesn't contain key " ++ foo) ∧
    ∃ names : List String, (execute s c bdpl ns).secrets = some names ∧
      ∀ (k : Nat) (w : String), k < i → vars[k]? = some w →
        ∃ nm key, variableSecret c bdpl.Name w = .ok (nm, key) ∧ names[k]? = some nm := by
  obtain ⟨calls, hx⟩ := execute_of_patched s c bdpl ns m bytes hp
  have hres : resourceData c.client ns .secret bar foo
      = .error ("secret '" ++ ns ++ "/" ++ bar ++ "' doesn't contain key " ++ foo) := by
    simp only [resourceData, hget, hmiss]
  obtain ⟨h1, h2, h3⟩ := resolve_fetch_failure c bdpl ns m bytes calls manifest mi vars i v bar
    foo _ hload hvars hv hbefore href hres
  have hi : i < vars.length := by
    by_contra hge
    rw [List.getElem?_eq_none (by omega)] at hv
    simp at hv
  rw [hx]
  refine ⟨h1, ?_, _, h2, ?_⟩
  · have hlit : ∀ t : String, "': " ++ ("secret '" ++ t) = "': secret '" ++ t := by
      intro t
      rw [← String.append_assoc]
      rfl
    simp [h3, wrapf, String.append_assoc, hlit]
  · intro k w hk hw
    exact accumulated_entry c bdpl.Name vars _ _ k w hk (Nat.le_of_lt hi) hw
      (substituteAll_wellFormed c bdpl.Name ns _ manifest mi hbefore w
        (List.getElem?_mem (n := k) (by simp [List.getElem?_take, hk, hw])))

/-- Variables `a` and `b/c` under both strategies: `a` resolves, the secret of
`b` has no key `c`. -/
theorem missing_key_failure_witness :
    ((execute .combined (sample (sampleInterpolator none "") ["a", "b/c"] false false)
        (sampleDeployment ["o1"]) "ns").err
      = some ("failed to load secret for variable '" ++ "b/c" ++ "': secret '" ++ "ns" ++ "/" ++
        "dep-var-b" ++ "' doesn't contain key " ++ "c") ∧
     (execute .combined (sample (sampleInterpolator none "") ["a", "b/c"] false false)
        (sampleDeployment ["o1"]) "ns").secrets = some ["dep-var-a", ""]) ∧
    ((execute .detailed (sample (sampleInterpolator none "") ["a", "b/c"] false false)
        (sampleDeployment ["o1"]) "ns").err
      = some ("failed to load secret for variable '" ++ "b/c" ++ "': secret '" ++ "ns" ++ "/" ++
        "dep-var-b" ++ "' doesn't contain key " ++ "c") ∧
     (execute .detailed (sample (sampleInterpolator none "") ["a", "b/c"] false false)
        (sampleDeployment ["o1"]) "ns").secrets = some ["dep-var-a", ""]) :=
  ⟨⟨(missing_key_failure .combined (sample (sampleInterpolator none "") ["a", "b/c"] false false)
      (sampleDeployment ["o1"]) "ns" "name: ((instance_name))" "name: ((instance_name))patch o1;"
      (.ptr (.struct false [(.exported, .str "name: ((instance_name))patch o1;")]))
      (.ptr (.struct false [(.exported, .str "name: ((instance_name))patch o1;")]))
      ["a", "b/c"] 1 "b/c" "dep-var-b" "c" [("value", "worker-1")]
      ⟨rfl, ["patch o1;"], List.Forall₂.cons rfl List.Forall₂.nil,
        Or.inr ⟨List.cons_ne_nil _ _, ["patch o1;"], rfl, rfl⟩⟩
      rfl rfl rfl rfl rfl rfl rfl).2.1, rfl⟩,
   ⟨(missing_key_failure .detailed (sample (sampleInterpolator none "") ["a", "b/c"] false false)
      (sampleDeployment ["o1"]) "ns" "name: ((instance_name))" "name: ((instance_name))patch o1;"
      (.ptr (.struct false [(.exported, .str "name: ((instance_name))patch o1;")]))
      (.ptr (.struct false [(.exported, .str "name: ((instance_name))patch o1;")]))
      ["a", "b/c"] 1 "b/c" "dep-var-b" "c" [("value", "worker-1")]
      ⟨rfl, ["patch o1;"], List.Forall₂.cons rfl List.Forall₂.nil, rfl⟩
      rfl rfl rfl rfl rfl rfl rfl).2.1, rfl⟩⟩

/-- C10: for both strategies, when the collaborators let the run reach the
variable loop with the `n` variables `vars`. If the variables before number
`i` (from 0) resolve and the secret fetch of number `i` fails, the run returns
an error and a list of length `n`: the derived secret names of the variables
before `i`, then empty strings from `i` on. If all variables resolve and the
addons fail, the run returns an error and a list of length `n` that holds the
derived secret names of all variables. -/
theorem secret_list_padded {σ : Type} (s : Strategy) (c : Collaborators σ)
    (bdpl : BOSHDeployment) (ns m bytes : String) (manifest : Node) (vars : List String)
    (hp : Patched s c bdpl ns m bytes) (hload : c.LoadYAML bytes = .ok manifest)
    (hvars : c.ImplicitVariables manifest = .ok vars) :
    (∀ (i : Nat) (v bar foo e : String) (mi : Node), vars[i]? = some v →
      substituteAll c bdpl.Name ns manifest (vars.take i) = some mi →
      variableSecret c bdpl.Name v = .ok (bar, foo) →
      resourceData c.client ns .secret bar foo = .error e →
      (execute s c bdpl ns).manifest = none ∧
      (execute s c bdpl ns).err
        = some (wrapf e ("failed to load secret for variable '" ++ v ++ "'")) ∧
      ∃ l : List String, (execute s c bdpl ns).secrets = some l ∧ l.length = vars.length ∧
        (∀ (k : Nat) (w : String), k < i → vars[k]? = some w →
          ∃ nm key, variableSecret c bdpl.Name w = .ok (nm, key) ∧ l[k]? = some nm) ∧
        (∀ k, i ≤ k → k < vars.length → l[k]? = some "")) ∧
    (∀ (mF : Node) (e : String), substituteAll c bdpl.Name ns manifest vars = some mF →
      c.ApplyAddons mF = .error e →
      (execute s c bdpl ns).manifest = none ∧
      (execute s c bdpl ns).err = some (wrapf e "failed to apply addons") ∧
      ∃ l : List String, (execute s c bdpl ns).secrets = some l ∧ l.length = vars.length ∧
        ∀ (k : Nat) (w : String), vars[k]? = some w →
          ∃ nm key, variableSecret c bdpl.Name w = .ok (nm, key) ∧ l[k]? = some nm) := by
  obtain ⟨calls, hx⟩ := execute_of_patched s c bdpl ns m bytes hp
  rw [hx]
  constructor
  · intro i v bar foo e mi hv hbefore href hres
    obtain ⟨h1, h2, h3⟩ := resolve_fetch_failure c bdpl ns m bytes calls manifest mi vars i v bar
      foo e hload hvars hv hbefore href hres
    have hi : i < vars.length := by
      by_contra hge
      rw [List.getElem?_eq_none (by omega)] at hv
      simp at hv
    refine ⟨h1, h3, _, h2, ?_, ?_, ?_⟩
    · simp only [List.length_append, List.length_map, List.length_take, List.length_replicate]
      omega
    · intro k w hk hw
      exact accumulated_entry c bdpl.Name vars _ _ k w hk (Nat.le_of_lt hi) hw
        (substituteAll_wellFormed c bdpl.Name ns _ manifest mi hbefore w
          (List.getElem?_mem (n := k) (by simp [List.getElem?_take, hk, hw])))
    · intro k hk1 hk2
      rw [List.getElem?_append_right (by simp; omega)]
      simp only [List.length_map, List.length_take, Nat.min_eq_left (Nat.le_of_lt hi)]
      rw [List.getElem?_replicate]
      simp
      omega
  · intro mF e hsub hadd
    obtain ⟨h1, h2, h3⟩ := resolve_addons_failure c bdpl ns m bytes calls manifest mF vars e
      hload hvars hsub hadd
    refine ⟨h1, h3, _, h2, by simp, ?_⟩
    intro k w hw
    obtain ⟨⟨nm, key⟩, hp'⟩ := substituteAll_wellFormed c bdpl.Name ns vars manifest mF hsub w
      (List.getElem?_mem hw)
    exact ⟨nm, key, hp', by simp [List.getElem?_map, hw, secretNameOf, hp']⟩

/-- Three variables under both strategies, the fetch of the second fails: the
list is the first name and two empty strings. -/
theorem secret_list_padded_witness :
    ((execute .combined (sample (sampleInterpolator none "") ["a", "b/c", "d"] false false)
        (sampleDeployment []) "ns").secrets = some ["dep-var-a", "", ""] ∧
     (execute .combined (sample (sampleInterpolator none "") ["a", "b/c", "d"] false false)
        (sampleDeployment []) "ns").manifest = none) ∧
    ((execute .detailed (sample (sampleInterpolator none "") ["a", "b/c", "d"] false false)
        (sampleDeployment []) "ns").secrets = some ["dep-var-a", "", ""] ∧
     (execute .detailed (sample (sampleInterpolator none "") ["a", "b/c", "d"] false false)
        (sampleDeployment []) "ns").manifest = none) :=
  ⟨⟨rfl, ((secret_list_padded .combined
      (sample (sampleInterpolator none "") ["a", "b/c", "d"] false false)
      (sampleDeployment []) "ns" "name: ((instance_name))" "name: ((instance_name))"
      (.ptr (.struct false [(.exported, .str "name: ((instance_name))")])) ["a", "b/c", "d"]
      ⟨rfl, [], List.Forall₂.nil, Or.inl ⟨rfl, rfl⟩⟩ rfl rfl).1 1 "b/c" "dep-var-b" "c"
      "secret 'ns/dep-var-b' doesn't contain key c"
      (.ptr (.struct false [(.exported, .str "name: ((instance_name))")])) rfl rfl rfl rfl).1⟩,
   ⟨rfl, ((secret_list_padded .detailed
      (sample (sampleInterpolator none "") ["a", "b/c", "d"] false false)
      (sampleDeployment []) "ns" "name: ((instance_name))" "name: ((instance_name))"
      (.ptr (.struct false [(.exported, .str "name: ((instance_name))")])) ["a", "b/c", "d"]
      ⟨rfl, [], List.Forall₂.nil, rfl⟩ rfl rfl).1 1 "b/c" "dep-var-b" "c"
      "secret 'ns/dep-var-b' doesn't contain key c"
      (.ptr (.struct false [(.exported, .str "name: ((instance_name))")])) rfl rfl rfl rfl).1⟩⟩

end Withops
